import Mathlib

/-!
Verification of the BabbleFish v2 core against its specification.

The development shallowly embeds the relevant Python modules:

* `src/core/novels.py`       — `Chapter`, `Novel`, the requirement scheduler
* `src/core/entities.py`     — `NameEntry`, `Entity`, `Entity.merge_entity`
* `src/workflows/ingestion_nodes/term_creator.py` — graph-based entity
  unification (`_map_names`, `_add_nodes`, `_add_edges`,
  `_find_related_entities`, `_combine_entities`, `_unify_entities`)
* `src/workflows/translation/workflow.py` + `routing.py` — the bounded
  feedback translation workflow
* `src/knowledge_graph/entity_operations.py` + `triplet_operations.py`
  — the Neo4j merge applier and relationship queries (the Cypher queries
  are translated into operations on an explicit store model)
* `src/translation_orchestration/novel_processor.py` — task dispatch

Python exceptions are modelled with `Except PyErr`; Python object identity
(needed for the in-place mutation performed by `merge_entity`) is modelled
with an explicit heap, `Array Entity`, indexed by `Nat`.  Python `dict`
iteration-order details are noted at each definition.  Where the CPython
`set` iteration order is unspecified (connected-component member order)
the embedding fixes a deterministic insertion order.
-/

/-- Python exception model: the exception kinds the embedded code can raise. -/
inductive PyErr where
  | indexError
  | keyError (key : String)
  | attributeError (attr : String)
  | valueError
  | notImplementedError
deriving DecidableEq, Repr

/-! ## `src/core/novels.py` -/

/-- `Genre(Enum)` from `novels.py`. -/
inductive Genre where
  | ACTION | ADVENTURE | COMEDY | DRAMA | FANTASY | POST_APOCALYPTIC
  | MAGICAL_REALISM | THRILLER | HISTORICAL | HORROR | MARTIAL_ARTS
  | MATURE | MECHA | MYSTERY | PSYCHOLOGICAL | ROMANCE | SCHOOL_LIFE
  | SCI_FI | SLICE_OF_LIFE | SPORTS | SUPERNATURAL | TRAGEDY | WUXIA
  | XIANXIA | XUANHUAN | DYSTOPIAN
deriving DecidableEq, Repr

/-- `Requirement(Enum)` from `novels.py`.  The source member `ANNOTATION`
is named `ANNOT` here (only the Lean name is shortened). -/
inductive Requirement where
  | SETUP
  | ANNOT
  | INGESTION
  | TRANSLATION
  | SUMMARY
deriving DecidableEq, Repr

/-- `Chapter` from `novels.py`. -/
structure Chapter where
  original : String
  translation : Option String := none
  summary : Option String := none
  annotated_status : Bool := false
  ingested_status : Bool := false
deriving DecidableEq, Repr

/-- `Chapter.get_requirements`: the `checks` dict is iterated in insertion
order (SUMMARY, INGESTION, ANNOTATION, TRANSLATION) and the requirements
whose condition holds are kept, in that order. -/
def Chapter.get_requirements (c : Chapter) : List Requirement :=
  [(Requirement.SUMMARY, c.summary.isNone),
   (Requirement.INGESTION, !c.ingested_status),
   (Requirement.ANNOT, !c.annotated_status),
   (Requirement.TRANSLATION, c.translation.isNone)].filterMap
    (fun p => if p.2 then some p.1 else none)

/-- `Novel` from `novels.py`.  `indexed_chapters : Dict[int, Chapter]` is
modelled as an association list; genuine dict values have `Nodup` keys. -/
structure Novel where
  indexed_chapters : List (Int × Chapter)
  style_guide : Option String := none
  genres : Option (List Genre) := none
  language : Option String := none
deriving DecidableEq, Repr

/-- `Novel.get_novel_requirements`: returns `Requirement.SETUP` as soon as
one of the three checks fires, else Python's `False` (modelled `none`). -/
def Novel.get_novel_requirements (n : Novel) : Option Requirement :=
  if n.style_guide = none ∨ n.genres = none ∨ n.language = none then
    some Requirement.SETUP
  else none

/-- Insertion step of the sort performed by Python's
`sorted(self.indexed_chapters.keys())`, kept on key/value pairs. -/
def insertPairSorted (x : Int × Chapter) : List (Int × Chapter) → List (Int × Chapter)
  | [] => [x]
  | y :: ys => if x.1 ≤ y.1 then x :: y :: ys else y :: insertPairSorted x ys

/-- Stable ascending sort by chapter index, as `sorted(...)` produces. -/
def sortPairsByKey (l : List (Int × Chapter)) : List (Int × Chapter) :=
  l.foldr insertPairSorted []

/-- The chapters of a novel listed in ascending index order:
`[(k, chapters[k]) for k in sorted(chapters.keys())]`. -/
def Novel.sorted_chapters (n : Novel) : List (Int × Chapter) :=
  sortPairsByKey n.indexed_chapters

/-- The chapter-level scan of `Novel.get_task`: walk chapters in ascending
index order and return the first chapter with a nonempty requirement list,
paired with its first requirement. -/
def chapterTaskScan : List (Int × Chapter) → Option (Int × String × Requirement)
  | [] => none
  | (i, c) :: rest =>
    match c.get_requirements with
    | [] => chapterTaskScan rest
    | r :: _ => some (i, c.original, r)

/-- `Novel.get_task` from `novels.py`. -/
def Novel.get_task (n : Novel) : Option (Int × String × Requirement) :=
  match n.get_novel_requirements with
  | some novel_requirement =>
    match n.sorted_chapters with
    | [] => none
    | (_, c) :: _ => some (-1, c.original, novel_requirement)
  | none => chapterTaskScan n.sorted_chapters

/-- `Novel.is_complete` from `novels.py`. -/
def Novel.is_complete (n : Novel) : Bool :=
  n.get_task = none

/-- Spec wording of the per-unit requirement priority (spec §4.1 step 2):
evaluate `Summary→Ingestion→Annotation→Translation` in fixed order and
return the first one whose condition holds.  Stated from the spec's words,
to be compared with `Chapter.get_requirements`. -/
def firstRequirementSpec (c : Chapter) : Option Requirement :=
  if c.summary = none then some Requirement.SUMMARY
  else if ¬ c.ingested_status then some Requirement.INGESTION
  else if ¬ c.annotated_status then some Requirement.ANNOT
  else if c.translation = none then some Requirement.TRANSLATION
  else none

/-! ## `src/core/entities.py` -/

/-- `EntityType(Enum)` from `entities.py`. -/
inductive EntityType where
  | CHARACTER | PLACE | ORGANIZATION | EVENT | ITEM | CONCEPT
  | TITLE | WORK | LANGUAGE | SPECIES | MYTH
deriving DecidableEq, Repr

/-- Value in a Neo4j property map (`Any` on the Python side is restricted
to the value shapes the embedded code actually stores). -/
inductive PropVal where
  | str (s : String)
  | int (i : Int)
  | float (q : Int)
  | bool (b : Bool)
  | strList (l : List String)
  | intList (l : List Int)
  | boolList (l : List Bool)
deriving DecidableEq, Repr

/-- `NameEntry` from `entities.py`. -/
structure NameEntry where
  name : String
  translation : String
  is_weak : Bool
deriving DecidableEq, Repr

/-- `Entity` from `entities.py`.  `properties : Dict[str, Any]` is an
association list (`__post_init__` defaults it to `{}`). -/
structure Entity where
  names : List NameEntry
  entity_type : EntityType
  description : String
  chapter_idx : List Int
  properties : List (String × PropVal) := []
deriving DecidableEq, Repr

instance : Inhabited Entity :=
  ⟨⟨[], EntityType.CONCEPT, "", [], []⟩⟩

/-- `Entity.strong_names`. -/
def Entity.strong_names (e : Entity) : List String :=
  (e.names.filter (fun entry => !entry.is_weak)).map NameEntry.name

/-- `Entity.weak_names`. -/
def Entity.weak_names (e : Entity) : List String :=
  (e.names.filter (fun entry => entry.is_weak)).map NameEntry.name

/-- `Entity.all_names`. -/
def Entity.all_names (e : Entity) : List String :=
  e.names.map NameEntry.name

/-- Python's `str.lower()`, character by character (`String.toLower`
restated so that it reduces inside the kernel; the names handled here are
within the ASCII range, where the two case foldings agree). -/
def pyToLower (s : String) : String :=
  ⟨s.data.map Char.toLower⟩

/-- `Entity.add_name_entry`: append the entry unless a case-insensitively
equal name is already present. -/
def Entity.add_name_entry (e : Entity) (entry : NameEntry) : Entity :=
  if (e.names.map (fun x => pyToLower x.name)).contains (pyToLower entry.name)
  then e
  else { e with names := e.names ++ [entry] }

/-- `Entity.merge_entity`: combines another entity into `e` (in Python this
mutates `self`; the updated value is returned here and written back to the
heap by the caller).  The initial `print` indexes `entity.names[0]` and then
`self.names[0]`, so an empty `names` list on either side raises
`IndexError`.  `current_names` is the set of exact (case-sensitive) names of
`self` computed once, before the loop; `add_name_entry` then re-checks
case-insensitively against the growing name list.  `chapter_idx` is
extended, not set-unioned. -/
def Entity.merge_entity (e other : Entity) : Except PyErr Entity :=
  match other.names with
  | [] => .error .indexError
  | _ :: _ =>
    match e.names with
    | [] => .error .indexError
    | _ :: _ =>
      let current_names := e.names.map NameEntry.name
      let merged := other.names.foldl
        (fun acc entry =>
          if current_names.contains entry.name then acc
          else acc.add_name_entry entry) e
      .ok { merged with chapter_idx := merged.chapter_idx ++ other.chapter_idx }

/-! ## `src/workflows/ingestion_nodes/term_creator.py`

The unification pipeline.  Python object identity matters here (entities
are deduplicated with `id(entity)` and mutated in place by
`merge_entity`), so the entities live on an explicit heap `Array Entity`
and the pipeline works with heap indices; `_unify_entities` lays out
`old_entities ++ new_entities` on the heap, so index `i` is the i-th
object the Python run would allocate. -/

/-- Heap of Python `Entity` objects; an index plays the role of `id(...)`. -/
abbrev EntityHeap := Array Entity

/-- Dereference a heap index (all indices used by the pipeline are in
bounds; out-of-bounds reads return the default entity). -/
def entityAt (heap : EntityHeap) (i : Nat) : Entity :=
  heap.getD i default

/-- `_map_names`: `mapping[name] = entity` for every strong name of every
entity, in order.  The dict is modelled by a prepend list, so the first
match found by `mapNamesLookup` is the **last** write, exactly Python's
last-writer-wins dict update. -/
def map_names (heap : EntityHeap) (entities_list : List (List Nat)) :
    List (String × Nat) :=
  entities_list.foldl
    (fun m idxs =>
      idxs.foldl
        (fun m i =>
          (entityAt heap i).strong_names.foldl (fun m nm => (nm, i) :: m) m)
        m)
    []

/-- Lookup in the `_map_names` dict (first match = last Python write). -/
def mapNamesLookup (m : List (String × Nat)) (k : String) : Option Nat :=
  (m.find? (fun p => p.1 == k)).map Prod.snd

/-- `_add_nodes`: all strong names of all entities, in order (`networkx`
deduplicates node insertion; deduplication happens in
`connected_components` below). -/
def add_nodes (heap : EntityHeap) (entities_list : List (List Nat)) :
    List String :=
  entities_list.foldl
    (fun acc idxs =>
      idxs.foldl (fun acc i => acc ++ (entityAt heap i).strong_names) acc)
    []

/-- The edges `_add_edges` contributes for one entity:
`anchor = strong_names[0]` raises `IndexError` on an entity with no strong
names; otherwise every further strong name is joined to the anchor.
(The `isinstance(strong_names, list)` guard in the source can never fire
in a typed embedding and is omitted.) -/
def entity_edges (e : Entity) : Except PyErr (List (String × String)) :=
  match e.strong_names with
  | [] => .error .indexError
  | anchor :: rest => .ok (rest.map (fun s => (anchor, s)))

/-- `_add_edges` over all entities of all groups. -/
def add_edges (heap : EntityHeap) (entities_list : List (List Nat)) :
    Except PyErr (List (String × String)) :=
  (entities_list.foldl (fun acc idxs => acc ++ idxs) []).foldlM
    (fun acc i => do
      let es ← entity_edges (entityAt heap i)
      pure (acc ++ es))
    []

/-- A partition of graph nodes into connected components. -/
abbrev Partition := List (List String)

/-- The block of the partition containing `x`, if any. -/
def blockOf (p : Partition) (x : String) : Option (List String) :=
  p.find? (fun bl => bl.contains x)

/-- Add a node to the partition if it is not yet present (as
`networkx.add_node` / `add_edge` do for unseen names). -/
def ensureNode (p : Partition) (x : String) : Partition :=
  if p.any (fun bl => bl.contains x) then p else p ++ [[x]]

/-- Initial partition: one singleton block per node, first occurrence
only, in node-insertion order (`networkx` node set). -/
def initPartition (nodes : List String) : Partition :=
  nodes.foldl ensureNode []

/-- Merge the blocks containing `a` and `b` (no-op if they already share a
block).  The merged block takes the position of `a`'s block; `b`'s block
disappears. -/
def mergeBlocks (p : Partition) (a b : String) : Partition :=
  match blockOf p a, blockOf p b with
  | some ba, some bb =>
    if ba = bb then p
    else (p.filter (fun bl => bl ≠ bb)).map
      (fun bl => if bl = ba then ba ++ bb else bl)
  | _, _ => p

/-- Process one undirected edge. -/
def addEdgeP (p : Partition) (e : String × String) : Partition :=
  mergeBlocks (ensureNode (ensureNode p e.1) e.2) e.1 e.2

/-- `networkx.connected_components` of the graph built by `_add_nodes` /
`_add_edges`, as a partition of the node names.  (Python iterates each
component as a `set`, whose order CPython leaves unspecified; the embedding
fixes a deterministic insertion/merge order.) -/
def connected_components (nodes : List String)
    (edges : List (String × String)) : Partition :=
  edges.foldl addEdgeP (initPartition nodes)

/-- `a` and `b` lie in one block of the partition. -/
def sameBlock (p : Partition) (a b : String) : Prop :=
  ∃ bl ∈ p, a ∈ bl ∧ b ∈ bl

/-- The blocks of a partition are pairwise disjoint. -/
def blocksDisjoint (p : Partition) : Prop :=
  p.Pairwise (fun b1 b2 => ∀ x, x ∈ b1 → x ∉ b2)

/-- First-occurrence deduplication (the `connected_entities` dict keyed by
`id(entity)` keeps the first occurrence of each object, in order). -/
def dedupKeepFirst (l : List Nat) : List Nat :=
  l.foldl (fun acc i => if acc.contains i then acc else acc ++ [i]) []

/-- `_find_related_entities`: map each name of each component through the
`_map_names` dict (a missing key would be Python's `KeyError`) and
deduplicate by object identity (`id(entity)`), keeping first-occurrence
order as the Python dict does. -/
def find_related_entities (mapping : List (String × Nat)) (p : Partition) :
    Except PyErr (List (List Nat)) :=
  p.mapM (fun bl => do
    let idxs ← bl.mapM (fun nm =>
      match mapNamesLookup mapping nm with
      | some i => Except.ok i
      | none => Except.error (PyErr.keyError nm))
    pure (dedupKeepFirst idxs))

/-- `_combine_entities` on a single component:
`base_entity = entity_list[0]` (IndexError on an empty list), then every
further entity is merged into the base **in place**; the heap slot of the
base index is updated and the base index is the returned "object". -/
def combine_component : EntityHeap → List Nat → Except PyErr (Nat × EntityHeap)
  | _, [] => .error .indexError
  | heap, base :: rest => do
    let h ← rest.foldlM
      (fun h i => do
        let merged ← (entityAt h base).merge_entity (entityAt h i)
        pure (h.setD base merged))
      heap
    pure (base, h)

/-- `_combine_entities` over all components, threading the heap. -/
def combine_entities (heap : EntityHeap) (related : List (List Nat)) :
    Except PyErr (List Nat × EntityHeap) :=
  related.foldlM
    (fun acc idxs => do
      let (b, h) ← combine_component acc.2 idxs
      pure (acc.1 ++ [b], h))
    ([], heap)

/-- `EntityCreator._unify_entities`.  `old_entities` stands for the store
read `self.kg_manager.get_all_entities()`; the heap lays out
`old_entities ++ new_entities` and the two groups are passed as
`[old_entities, new_entities]` exactly as in the source.  Returns the list
of returned objects (heap indices) together with the final heap. -/
def unifyHeap (old_entities new_entities : List Entity) : EntityHeap :=
  (old_entities ++ new_entities).toArray

def unifyGroups (old_entities new_entities : List Entity) : List (List Nat) :=
  [List.range old_entities.length,
   (List.range new_entities.length).map (fun i => i + old_entities.length)]

def unify_entities (old_entities new_entities : List Entity) :
    Except PyErr (List Nat × EntityHeap) :=
  let heap : EntityHeap := unifyHeap old_entities new_entities
  let groups := unifyGroups old_entities new_entities
  let mapping := map_names heap groups
  let nodes := add_nodes heap groups
  do
    let edges ← add_edges heap groups
    let comps := connected_components nodes edges
    let related ← find_related_entities mapping comps
    combine_entities heap related

/-- The component/entity structure computed by the pipeline before
merging: which source objects `_combine_entities` will fold together. -/
def unify_related (old_entities new_entities : List Entity) :
    Except PyErr (List (List Nat)) :=
  let heap : EntityHeap := unifyHeap old_entities new_entities
  let groups := unifyGroups old_entities new_entities
  let mapping := map_names heap groups
  let nodes := add_nodes heap groups
  do
    let edges ← add_edges heap groups
    let comps := connected_components nodes edges
    find_related_entities mapping comps

/-- The entity list `_unify_entities` returns (the returned heap objects,
dereferenced in the final heap). -/
def unify_result (old_entities new_entities : List Entity) :
    Except PyErr (List Entity) :=
  (unify_entities old_entities new_entities).map
    (fun r => r.1.map (entityAt r.2))

/-! ## `src/workflows/translation/workflow.py` + `routing.py`

The compiled langgraph: nodes are
`style_analyzer → language_detector → translator → feedback_router`,
a conditional edge from `feedback_router` (counter bound) to
`fluency_editor`/`junior_editor`, a conditional edge from `junior_editor`
(approval marker) to `fluency_editor`/`translator`, and
`fluency_editor → END`.  Each LLM-backed node returns a partial state dict
updating exactly one key (`translator` → `translation`, `junior_editor` →
`feedback`, `fluency_editor` → `fluent_translation`,
`language_detector` → `language`); those text producers are opaque
external calls and enter the model as parameters. -/

/-- `TranslationState` (TypedDict): `feedback_rout_loops` may be absent,
hence `Option`. -/
structure TranslationState where
  text : String
  style_guide : String
  language : String
  translation : String
  fluent_translation : String
  feedback : String
  feedback_rout_loops : Option Nat
deriving DecidableEq, Repr

/-- `APPROVED_RESPONSE_MARKER` from `workflow.py`. -/
def APPROVED_RESPONSE_MARKER : String := "approved response accepted"

/-- Python's `needle in haystack` substring test. -/
def strContains (haystack needle : String) : Bool :=
  decide (needle.data <:+: haystack.data)

/-- `route_junior_pass`: `APPROVED_RESPONSE_MARKER in state["feedback"]`. -/
def route_junior_pass (state : TranslationState) : Bool :=
  strContains state.feedback APPROVED_RESPONSE_MARKER

/-- `FeedbackRouter.increment_feedback` from `routing.py`: insert `0` if
the key is missing, then increment. -/
def increment_feedback (state : TranslationState) : TranslationState :=
  { state with
    feedback_rout_loops := some (state.feedback_rout_loops.getD 0 + 1) }

/-- `TranslationWorkflowFactory._route_increment_exceed`:
`state["feedback_rout_loops"] >= max_feedback_loops`.  The key is always
present when this conditional edge runs (it directly follows
`feedback_router`). -/
def route_increment_exceed (max_feedback_loops : Nat)
    (state : TranslationState) : Bool :=
  state.feedback_rout_loops.getD 0 ≥ max_feedback_loops

/-- The nodes of the compiled translation workflow (`END` is langgraph's
terminal). -/
inductive WNode where
  | style_analyzer
  | language_detector
  | translator
  | feedback_router
  | junior_editor
  | fluency_editor
  | END
deriving DecidableEq, Repr

/-- The opaque external text producers of the workflow, as functions of
the current state.  `styleFn` stands for `StyleAnalyzer.analyze_style`
(modelled from the spec: the `style` module is imported by
`workflow.py` but missing from the sources; per spec §4.4 it contributes
the style guide text and nothing else). -/
structure WorkflowFns where
  styleFn : TranslationState → String
  langFn : TranslationState → String
  translateFn : TranslationState → String
  reviewFn : TranslationState → String
  fluencyFn : TranslationState → String

/-- One transition of the compiled workflow: run the node at hand, merge
its partial result into the state, and follow the (conditional) edge
registered in `TranslationWorkflowFactory._add_routing`. -/
def wStep (fns : WorkflowFns) (max_feedback_loops : Nat) :
    WNode × TranslationState → WNode × TranslationState
  | (.style_analyzer, s) =>
    (.language_detector, { s with style_guide := fns.styleFn s })
  | (.language_detector, s) =>
    (.translator, { s with language := fns.langFn s })
  | (.translator, s) =>
    (.feedback_router, { s with translation := fns.translateFn s })
  | (.feedback_router, s) =>
    let s' := increment_feedback s
    if route_increment_exceed max_feedback_loops s' then (.fluency_editor, s')
    else (.junior_editor, s')
  | (.junior_editor, s) =>
    let s' := { s with feedback := fns.reviewFn s }
    if route_junior_pass s' then (.fluency_editor, s') else (.translator, s')
  | (.fluency_editor, s) =>
    (.END, { s with fluent_translation := fns.fluencyFn s })
  | (.END, s) => (.END, s)

/-- Run the workflow for at most `fuel` transitions, recording the nodes
executed (in order) and the final node/state.  `END` executes nothing. -/
def wRun (fns : WorkflowFns) (max_feedback_loops : Nat) :
    Nat → WNode × TranslationState → List WNode × (WNode × TranslationState)
  | 0, st => ([], st)
  | fuel + 1, (n, s) =>
    if n = WNode.END then ([], (n, s))
    else
      let st' := wStep fns max_feedback_loops (n, s)
      let r := wRun fns max_feedback_loops fuel st'
      (n :: r.1, r.2)

/-- The initial state `NovelTranslator.translate_chapter` passes to
`workflow.ainvoke` (all output fields empty, loop counter present at 0). -/
def initialTranslationState (text style_guide language : String) :
    TranslationState :=
  ⟨text, style_guide, language, "", "", "", some 0⟩

/-! ## `src/knowledge_graph/entity_operations.py` and
`triplet_operations.py`

An explicit model of the Neo4j store: `Entity`-labelled nodes carrying the
property map `Entity.to_neo4j_props` produces, and relationships carrying
a type, direction (start/end node ids) and a property map.  The Cypher
queries of the source are translated clause by clause. -/

/-- The node property map produced by `Entity.to_neo4j_props`. -/
structure NodeProps where
  names_list : List String
  translations_list : List String
  is_weak_list : List Bool
  strong_names : List String
  weak_names : List String
  all_names : List String
  entity_type : EntityType
  chapter_idx : List Int
  description : String
  extra : List (String × PropVal)
deriving DecidableEq, Repr

/-- `Entity.to_neo4j_props` from `entities.py` (custom `properties` are
merged in as the extra keys). -/
def Entity.to_neo4j_props (e : Entity) : NodeProps :=
  { names_list := e.names.map NameEntry.name
    translations_list := e.names.map NameEntry.translation
    is_weak_list := e.names.map NameEntry.is_weak
    strong_names := e.strong_names
    weak_names := e.weak_names
    all_names := e.all_names
    entity_type := e.entity_type
    chapter_idx := e.chapter_idx
    description := e.description
    extra := e.properties }

/-- Property map of a stored relationship: the `predicate` property set at
creation plus the remaining metadata properties. -/
structure RelProps where
  predicate : String
  rest : List (String × PropVal)
deriving DecidableEq, Repr

/-- A stored `(:Entity)` node. -/
structure N4Node where
  nid : Nat
  props : NodeProps
deriving DecidableEq, Repr

/-- A stored relationship: Neo4j type, endpoints and property map. -/
structure N4Rel where
  rid : Nat
  relType : String
  startId : Nat
  endId : Nat
  props : RelProps
deriving DecidableEq, Repr

/-- The graph store (fresh element ids come from `nextId`). -/
structure GraphStore where
  nodes : List N4Node
  rels : List N4Rel
  nextId : Nat
deriving DecidableEq, Repr

/-- `EntityOperations._find_matching_entities`:
`MATCH (e:Entity) WHERE ANY(existing_name IN e.strong_names WHERE
existing_name IN $strong_names)`. -/
def find_matching_entities (store : GraphStore) (strong_names : List String) :
    List N4Node :=
  if strong_names = [] then []
  else store.nodes.filter
    (fun n => n.props.strong_names.any (fun nm => strong_names.contains nm))

/-- One row returned by `EntityOperations._collect_relationships`. -/
structure RelRow where
  e : N4Node
  r : N4Rel
  other : N4Node
  rel_type : String
  is_outgoing : Bool
  rel_props : RelProps
deriving DecidableEq, Repr

/-- Look a node up by element id. -/
def nodeById (store : GraphStore) (i : Nat) : Option N4Node :=
  store.nodes.find? (fun n => n.nid == i)

/-- `EntityOperations._collect_relationships`:
`MATCH (e:Entity)-[r:RELATES]-(other) WHERE elementId(e) IN $node_ids`.
The undirected pattern yields one row per matched endpoint (two rows for
a `RELATES` relationship both of whose endpoints are collected);
`rel_type` is `r.predicate` and `is_outgoing` is `startNode(r) = e`. -/
def collect_relationships (store : GraphStore) (node_ids : List Nat) :
    List RelRow :=
  store.rels.foldr
    (fun r acc =>
      let rows :=
        (if r.relType == "RELATES" then
          (match nodeById store r.startId, nodeById store r.endId with
           | some s, some o =>
             (if node_ids.contains r.startId then
               [⟨s, r, o, r.props.predicate, true, r.props⟩] else []) ++
             (if node_ids.contains r.endId then
               [⟨o, r, s, r.props.predicate, false, r.props⟩] else [])
           | _, _ => [])
        else [])
      rows ++ acc)
    []

/-- `EntityOperations._delete_entities`: `DETACH DELETE` of the listed
nodes (their relationships go with them). -/
def delete_entities (store : GraphStore) (node_ids : List Nat) : GraphStore :=
  { store with
    nodes := store.nodes.filter (fun n => !node_ids.contains n.nid)
    rels := store.rels.filter
      (fun r => !node_ids.contains r.startId && !node_ids.contains r.endId) }

/-- `EntityOperations._create_merged_entity` /
`EntityOperations._create_new_entity`: `CREATE (e:Entity) SET e = $props`. -/
def create_entity_node (store : GraphStore) (e : Entity) :
    N4Node × GraphStore :=
  let n : N4Node := ⟨store.nextId, e.to_neo4j_props⟩
  (n, { store with nodes := store.nodes ++ [n], nextId := store.nextId + 1 })

/-- `EntityOperations._deduplicate_relationships`: keep the first row per
key `(other.element_id, rel_type, direction)` in row order (Python dict
insertion order). -/
def deduplicate_relationships (rows : List RelRow) : List RelRow :=
  (rows.foldl
    (fun (acc : List RelRow) row =>
      if acc.any (fun x =>
          x.other.nid == row.other.nid && x.rel_type == row.rel_type &&
          x.is_outgoing == row.is_outgoing)
      then acc
      else acc ++ [row])
    [])

/-- `EntityOperations._create_relationship`: recreates one collected
relationship against the merged node.  The Cypher builds the relationship
type from the collected `rel_type` (the old `predicate` property), i.e.
``CREATE (new_e)-[r:`{rel_type}`]->(other)``, and copies the old property
map; the `MATCH` requires both endpoints to still exist, otherwise the
query creates nothing. -/
def create_relationship (store : GraphStore) (new_entity : N4Node)
    (row : RelRow) : GraphStore :=
  match nodeById store new_entity.nid, nodeById store row.other.nid with
  | some _, some _ =>
    let r : N4Rel :=
      if row.is_outgoing then
        ⟨store.nextId, row.rel_type, new_entity.nid, row.other.nid, row.rel_props⟩
      else
        ⟨store.nextId, row.rel_type, row.other.nid, new_entity.nid, row.rel_props⟩
    { store with rels := store.rels ++ [r], nextId := store.nextId + 1 }
  | _, _ => store

/-- `EntityOperations._recreate_relationships`. -/
def recreate_relationships (store : GraphStore) (new_entity : N4Node)
    (rows : List RelRow) : GraphStore :=
  (deduplicate_relationships rows).foldl
    (fun st row => create_relationship st new_entity row) store

/-- `EntityOperations._merge_entities` (the merge applier for one entity
that matched ≥1 stored node): collect, detach-delete, create merged node,
recreate deduplicated relationships. -/
def merge_entities_tx (store : GraphStore) (new_entity : Entity)
    (existing : List N4Node) : GraphStore :=
  let existing_node_ids := existing.map N4Node.nid
  let relationships := collect_relationships store existing_node_ids
  let store1 := delete_entities store existing_node_ids
  let (new_node, store2) := create_entity_node store1 new_entity
  recreate_relationships store2 new_node relationships

/-- `EntityOperations._update_entities_tx`: per entity, create it fresh
when it has no strong names or no stored node shares a strong name,
otherwise run the merge applier.  Returns the store and the count. -/
def update_entities_tx (store : GraphStore) (entities : List Entity) :
    GraphStore × Nat :=
  entities.foldl
    (fun (acc : GraphStore × Nat) entity =>
      if entity.strong_names = [] then
        ((create_entity_node acc.1 entity).2, acc.2 + 1)
      else
        match find_matching_entities acc.1 entity.strong_names with
        | [] => ((create_entity_node acc.1 entity).2, acc.2 + 1)
        | existing => (merge_entities_tx acc.1 entity existing, acc.2 + 1))
    (store, 0)

/-- `Direction` — imported by the source from `src.core.relationships`
but missing from the sources.  Modelled from the spec: relationships are
directional, and query rows are tagged outgoing/incoming. -/
inductive Direction where
  | OUTGOING
  | INCOMING
deriving DecidableEq, Repr

/-- `TripletMetadata` as `create_triplet_from_dict` reconstructs it from
a stored relationship property map. -/
structure TripletMetadata where
  chapter_idx : PropVal
  temporal_type : Option PropVal
  statement_type : Option PropVal
  importance : Option PropVal
  tense_type : Option PropVal
  source_text : Option PropVal
  additional_props : Option PropVal
deriving DecidableEq, Repr

/-- `InputTriplet` — imported by the source from `src.core.relationships`
but missing from the sources.  Modelled from the spec (§3): a directed
`(subjectName, predicate, objectName)` fact with metadata, plus the
direction tag `create_triplet_from_dict` passes. -/
structure InputTriplet where
  subject_name : NodeProps
  predicate : String
  object_name : NodeProps
  metadata : TripletMetadata
  direction : Direction
deriving DecidableEq, Repr

/-- One value of a row returned by
`TripletOperations._get_entity_relationships_tx`. -/
inductive RecVal where
  | nodeProps (p : NodeProps)
  | relProps (p : RelProps)
  | str (s : String)
deriving DecidableEq, Repr

/-- A Neo4j result row as a Python dict: keys are the `RETURN` aliases. -/
abbrev RelRecord := List (String × RecVal)

/-- Python `record[key]` (raises `KeyError` when absent). -/
def recordGet (rec : RelRecord) (key : String) : Except PyErr RecVal :=
  match rec.find? (fun p => p.1 == key) with
  | some p => .ok p.2
  | none => .error (PyErr.keyError key)

/-- Lookup in a relationship property map, as `dict.get` over the stored
properties (`predicate` plus the metadata keys). -/
def relPropsGet (p : RelProps) (key : String) : Option PropVal :=
  if key == "predicate" then some (PropVal.str p.predicate)
  else (p.rest.find? (fun q => q.1 == key)).map Prod.snd

/-- `check_not_incoming` — imported by `triplet_operations.py` from
`.utils` but missing from the sources.  Modelled from the spec: the query
keeps only rows whose direction is not `incoming` (spec §4.3/§8 phrases
relationship queries as returning the outgoing `KNOWS→Y` edge). -/
def check_not_incoming (rec : RelRecord) : Bool :=
  match rec.find? (fun p => p.1 == "direction") with
  | some (_, RecVal.str d) => !(d == "incoming")
  | _ => true

/-- `create_triplet_from_dict` from `knowledge_graph/utils.py`:
`metadata_dict = data.get("relationship_props", {})`, direction from
`data["direction"]` (a `ValueError` on any other value), then the triplet
is built from `data["entity"]`, `data["relationship_type"]` and
`data["related_entity"]` — a `KeyError` when an alias is absent. -/
def create_triplet_from_dict (data : RelRecord) : Except PyErr InputTriplet := do
  let metadata_dict :=
    match recordGet data "relationship_props" with
    | .ok (RecVal.relProps p) => some p
    | _ => none
  let mget := fun (k : String) =>
    match metadata_dict with
    | some p => relPropsGet p k
    | none => none
  let metadata : TripletMetadata :=
    ⟨(mget "chapter_idx").getD (PropVal.int 0), mget "temporal_type",
      mget "statement_type", mget "confidence", mget "tense_type",
      mget "source_text", mget "additional_props"⟩
  let dirVal ← recordGet data "direction"
  let direction ←
    match dirVal with
    | RecVal.str "outgoing" => Except.ok Direction.OUTGOING
    | RecVal.str "incoming" => Except.ok Direction.INCOMING
    | _ => Except.error PyErr.valueError
  let entity ← recordGet data "entity"
  let relationship_type ← recordGet data "relationship_type"
  let related_entity ← recordGet data "related_entity"
  match entity, relationship_type, related_entity with
  | RecVal.nodeProps s, RecVal.str p, RecVal.nodeProps o =>
    Except.ok ⟨s, p, o, metadata, direction⟩
  | _, _, _ => Except.error PyErr.valueError

/-- The rows of `TripletOperations._get_entity_relationships_tx`:
`MATCH (e:Entity)-[r:RELATES]-(other:Entity) WHERE $entity_name IN
e.all_names` with the five `RETURN` aliases (note: the relationship's
predicate is returned under the alias `predicate`). -/
def entity_relationship_rows (store : GraphStore) (entity_name : String) :
    List RelRecord :=
  store.rels.foldr
    (fun r acc =>
      let rows :=
        (if r.relType == "RELATES" then
          (match nodeById store r.startId, nodeById store r.endId with
           | some s, some o =>
             (if s.props.all_names.contains entity_name then
               [[("entity", RecVal.nodeProps s.props),
                 ("predicate", RecVal.str r.props.predicate),
                 ("relationship_props", RecVal.relProps r.props),
                 ("related_entity", RecVal.nodeProps o.props),
                 ("direction", RecVal.str "outgoing")]] else []) ++
             (if o.props.all_names.contains entity_name then
               [[("entity", RecVal.nodeProps o.props),
                 ("predicate", RecVal.str r.props.predicate),
                 ("relationship_props", RecVal.relProps r.props),
                 ("related_entity", RecVal.nodeProps s.props),
                 ("direction", RecVal.str "incoming")]] else [])
           | _, _ => [])
        else [])
      rows ++ acc)
    []

/-- `TripletOperations._get_entity_relationships_tx`: filter the rows with
`check_not_incoming`, then build the triplets with
`create_triplet_from_dict`. -/
def get_entity_relationships (store : GraphStore) (entity_name : String) :
    Except PyErr (List InputTriplet) :=
  ((entity_relationship_rows store entity_name).filter
    check_not_incoming).mapM create_triplet_from_dict

/-! ## `src/translation_orchestration/novel_processor.py` -/

/-- Python attribute access `Requirement.<name>` on the enum class:
`AttributeError` for a non-member. -/
def requirementAttr (name : String) : Except PyErr Requirement :=
  match name with
  | "SETUP" => .ok Requirement.SETUP
  | "ANNOTATION" => .ok Requirement.ANNOT
  | "INGESTION" => .ok Requirement.INGESTION
  | "TRANSLATION" => .ok Requirement.TRANSLATION
  | "SUMMARY" => .ok Requirement.SUMMARY
  | other => .error (PyErr.attributeError other)

/-- What `NovelTranslator.process_next_task` ends up doing for one task,
when it does not raise. -/
inductive TaskOutcome where
  | noTask
  | setupWorkflowRun (r : Requirement)
  | summaryHolderSet (idx : Int)
  | ingestChapterRun (idx : Int)
  | annotStatusSet (idx : Int)
  | translateChapterRun (idx : Int)
deriving DecidableEq, Repr

/-- `NovelTranslator.process_next_task`: fetch the task from
`Novel.get_task`; for a novel-level task (`chapter_index == -1`) the
membership test builds the list
`[Requirement.STYLE_GUIDE, Requirement.GENRES, Requirement.LANGUAGE]`
left to right — each element is an enum attribute access; for a
chapter-level task the `match` dispatches on the requirement with a
`NotImplementedError` fallback. -/
def process_next_task (n : Novel) : Except PyErr TaskOutcome :=
  match n.get_task with
  | none => .ok TaskOutcome.noTask
  | some (chapter_index, _chapter_text, requirement) =>
    if chapter_index = -1 then do
      let r1 ← requirementAttr "STYLE_GUIDE"
      let r2 ← requirementAttr "GENRES"
      let r3 ← requirementAttr "LANGUAGE"
      if requirement = r1 ∨ requirement = r2 ∨ requirement = r3 then
        Except.ok (TaskOutcome.setupWorkflowRun requirement)
      else
        Except.error PyErr.notImplementedError
    else
      match requirement with
      | Requirement.SUMMARY => .ok (TaskOutcome.summaryHolderSet chapter_index)
      | Requirement.INGESTION => .ok (TaskOutcome.ingestChapterRun chapter_index)
      | Requirement.ANNOT => .ok (TaskOutcome.annotStatusSet chapter_index)
      | Requirement.TRANSLATION =>
        .ok (TaskOutcome.translateChapterRun chapter_index)
      | Requirement.SETUP => .error PyErr.notImplementedError

/-! ### Scheduler lemmas -/

theorem mem_insertPairSorted (x p : Int × Chapter) (l : List (Int × Chapter)) :
    p ∈ insertPairSorted x l ↔ p = x ∨ p ∈ l := by
  induction l with
  | nil => simp [insertPairSorted]
  | cons y ys ih =>
    by_cases h : x.1 ≤ y.1
    · simp [insertPairSorted, h]
    · simp [insertPairSorted, h, ih]
      tauto

theorem mem_sortPairsByKey (p : Int × Chapter) (l : List (Int × Chapter)) :
    p ∈ sortPairsByKey l ↔ p ∈ l := by
  induction l with
  | nil => simp [sortPairsByKey]
  | cons y ys ih =>
    simp only [sortPairsByKey, List.foldr_cons] at *
    rw [mem_insertPairSorted, ih]
    simp

theorem sortPairsByKey_eq_nil_iff (l : List (Int × Chapter)) :
    sortPairsByKey l = [] ↔ l = [] := by
  induction l with
  | nil => simp [sortPairsByKey]
  | cons y ys ih =>
    simp only [sortPairsByKey, List.foldr_cons]
    constructor
    · intro h
      have : y ∈ insertPairSorted y (List.foldr insertPairSorted [] ys) := by
        rw [mem_insertPairSorted]; left; rfl
      rw [h] at this
      simp at this
    · intro h
      simp at h

theorem pairwise_insertPairSorted (x : Int × Chapter) (l : List (Int × Chapter))
    (h : l.Pairwise (fun a b => a.1 ≤ b.1)) :
    (insertPairSorted x l).Pairwise (fun a b => a.1 ≤ b.1) := by
  induction l with
  | nil => simp [insertPairSorted]
  | cons y ys ih =>
    rcases List.pairwise_cons.mp h with ⟨hy, hys⟩
    by_cases hx : x.1 ≤ y.1
    · simp only [insertPairSorted, hx, if_pos]
      refine List.pairwise_cons.mpr ⟨?_, h⟩
      intro b hb
      rcases List.mem_cons.mp hb with hb | hb
      · subst hb; exact hx
      · exact le_trans hx (hy b hb)
    · simp only [insertPairSorted, hx, if_neg, not_false_iff]
      refine List.pairwise_cons.mpr ⟨?_, ih hys⟩
      intro b hb
      rw [mem_insertPairSorted] at hb
      rcases hb with hb | hb
      · subst hb
        exact le_of_not_le hx
      · exact hy b hb

theorem pairwise_sortPairsByKey (l : List (Int × Chapter)) :
    (sortPairsByKey l).Pairwise (fun a b => a.1 ≤ b.1) := by
  induction l with
  | nil => simp [sortPairsByKey]
  | cons y ys ih =>
    simpa [sortPairsByKey] using pairwise_insertPairSorted y _ ih

/-- The first requirement computed by `Chapter.get_requirements` is the one
the spec's fixed priority order dictates. -/
theorem get_requirements_head_eq_spec (c : Chapter) :
    c.get_requirements.head? = firstRequirementSpec c := by
  unfold Chapter.get_requirements firstRequirementSpec
  by_cases h1 : c.summary = none <;>
    by_cases h2 : c.ingested_status <;>
      by_cases h3 : c.annotated_status <;>
        by_cases h4 : c.translation = none <;>
          simp [h1, h2, h3, h4, List.filterMap]

theorem get_requirements_nil_iff (c : Chapter) :
    c.get_requirements = [] ↔
      (c.summary ≠ none ∧ c.ingested_status = true ∧
       c.annotated_status = true ∧ c.translation ≠ none) := by
  unfold Chapter.get_requirements
  by_cases h1 : c.summary = none <;>
    by_cases h2 : c.ingested_status <;>
      by_cases h3 : c.annotated_status <;>
        by_cases h4 : c.translation = none <;>
          simp [h1, h2, h3, h4, List.filterMap]

theorem chapterTaskScan_eq_none_iff (l : List (Int × Chapter)) :
    chapterTaskScan l = none ↔ ∀ p ∈ l, p.2.get_requirements = [] := by
  induction l with
  | nil => simp [chapterTaskScan]
  | cons y ys ih =>
    obtain ⟨i, c⟩ := y
    cases hreq : c.get_requirements with
    | nil =>
      simp only [chapterTaskScan, hreq]
      rw [ih]
      constructor
      · intro h p hp
        rcases List.mem_cons.mp hp with hp | hp
        · subst hp; exact hreq
        · exact h p hp
      · intro h p hp
        exact h p (List.mem_cons_of_mem _ hp)
    | cons r rs =>
      simp only [chapterTaskScan, hreq]
      constructor
      · intro h; cases h
      · intro h
        have := h (i, c) (List.mem_cons_self _ _)
        simp only at this
        rw [hreq] at this
        cases this

theorem chapterTaskScan_eq_some (l : List (Int × Chapter)) (i : Int) (t : String)
    (r : Requirement) (h : chapterTaskScan l = some (i, t, r)) :
    ∃ c pre suf, l = pre ++ (i, c) :: suf ∧ t = c.original ∧
      c.get_requirements.head? = some r ∧
      ∀ p ∈ pre, p.2.get_requirements = [] := by
  induction l with
  | nil => cases h
  | cons y ys ih =>
    obtain ⟨j, c⟩ := y
    cases hreq : c.get_requirements with
    | nil =>
      simp only [chapterTaskScan, hreq] at h
      obtain ⟨c', pre, suf, hsplit, ht, hhead, hpre⟩ := ih h
      refine ⟨c', (j, c) :: pre, suf, by simp [hsplit], ht, hhead, ?_⟩
      intro p hp
      rcases List.mem_cons.mp hp with hp | hp
      · subst hp; exact hreq
      · exact hpre p hp
    | cons r' rs =>
      simp only [chapterTaskScan, hreq, Option.some.injEq, Prod.mk.injEq] at h
      obtain ⟨hi, ht, hr⟩ := h
      refine ⟨c, [], ys, by rw [hi]; rfl, ht.symm, ?_, by simp⟩
      rw [hreq, ← hr]
      rfl

/-- Claim C5: if any of `styleGuide`, `genres`, `language` is unset on the
Document, `Novel.get_task` returns `(-1, text of the unit with the smallest
index, Setup)` when at least one unit exists, and `none` when the Document
has no units. -/
theorem c5_setup_priority (n : Novel)
    (hunset : n.style_guide = none ∨ n.genres = none ∨ n.language = none) :
    (n.indexed_chapters = [] → n.get_task = none) ∧
    (n.indexed_chapters ≠ [] →
      ∃ k c, (k, c) ∈ n.indexed_chapters ∧ (∀ p ∈ n.indexed_chapters, k ≤ p.1) ∧
        n.get_task = some (-1, c.original, Requirement.SETUP)) := by
  have hreq : n.get_novel_requirements = some Requirement.SETUP := by
    unfold Novel.get_novel_requirements
    rw [if_pos hunset]
  constructor
  · intro hempty
    unfold Novel.get_task
    rw [hreq]
    have : n.sorted_chapters = [] := by
      unfold Novel.sorted_chapters
      rw [sortPairsByKey_eq_nil_iff]
      exact hempty
    rw [this]
  · intro hne
    have hs : n.sorted_chapters ≠ [] := by
      unfold Novel.sorted_chapters
      rw [Ne, sortPairsByKey_eq_nil_iff]
      exact hne
    cases hsc : n.sorted_chapters with
    | nil => exact absurd hsc hs
    | cons hd tl =>
      obtain ⟨k, c⟩ := hd
      refine ⟨k, c, ?_, ?_, ?_⟩
      · have : (k, c) ∈ n.sorted_chapters := by rw [hsc]; simp
        rwa [Novel.sorted_chapters, mem_sortPairsByKey] at this
      · intro p hp
        have hmem : p ∈ n.sorted_chapters := by
          rwa [Novel.sorted_chapters, mem_sortPairsByKey]
        rw [hsc] at hmem
        rcases List.mem_cons.mp hmem with hmem | hmem
        · subst hmem; exact le_refl _
        · have hpw := pairwise_sortPairsByKey n.indexed_chapters
          rw [show sortPairsByKey n.indexed_chapters = n.sorted_chapters from rfl,
            hsc, List.pairwise_cons] at hpw
          exact hpw.1 p hmem
      · unfold Novel.get_task
        rw [hreq, hsc]

/-- Claim C5 witness: a concrete document with one unit and no setup
fields set yields the Setup task on the first unit's text. -/
theorem c5_setup_priority_witness :
    ∃ k c, (k, c) ∈ (Novel.mk [(0, Chapter.mk "unit0" none none false false)]
        none none none).indexed_chapters ∧
      (∀ p ∈ (Novel.mk [(0, Chapter.mk "unit0" none none false false)]
        none none none).indexed_chapters, k ≤ p.1) ∧
      (Novel.mk [(0, Chapter.mk "unit0" none none false false)]
        none none none).get_task = some (-1, c.original, Requirement.SETUP) :=
  (c5_setup_priority
    (Novel.mk [(0, Chapter.mk "unit0" none none false false)] none none none)
    (Or.inl rfl)).2 (by simp)

/-- Claim C6: with all three setup fields set, `Novel.get_task` scans units
in ascending index order; it returns the first unit with an unsatisfied
requirement paired with the highest-priority unsatisfied requirement in
the fixed order Summary, Ingestion, Annotation, Translation, and returns
`none` exactly when no unit has outstanding work. -/
theorem c6_scan_order (n : Novel)
    (h1 : n.style_guide ≠ none) (h2 : n.genres ≠ none) (h3 : n.language ≠ none)
    (hnd : (n.indexed_chapters.map Prod.fst).Nodup) :
    (n.get_task = none ↔ ∀ p ∈ n.indexed_chapters, p.2.get_requirements = []) ∧
    (∀ i t r, n.get_task = some (i, t, r) →
      ∃ c, (i, c) ∈ n.indexed_chapters ∧ t = c.original ∧
        firstRequirementSpec c = some r ∧
        ∀ p ∈ n.indexed_chapters, p.1 < i → p.2.get_requirements = []) := by
  have hreq : n.get_novel_requirements = none := by
    unfold Novel.get_novel_requirements
    rw [if_neg]
    push_neg
    exact ⟨h1, h2, h3⟩
  have htask : n.get_task = chapterTaskScan n.sorted_chapters := by
    unfold Novel.get_task
    rw [hreq]
  constructor
  · rw [htask, chapterTaskScan_eq_none_iff]
    constructor
    · intro h p hp
      exact h p (by rwa [Novel.sorted_chapters, mem_sortPairsByKey])
    · intro h p hp
      exact h p (by rwa [Novel.sorted_chapters, mem_sortPairsByKey] at hp)
  · intro i t r hsome
    rw [htask] at hsome
    obtain ⟨c, pre, suf, hsplit, ht, hhead, hpre⟩ :=
      chapterTaskScan_eq_some _ _ _ _ hsome
    refine ⟨c, ?_, ht, ?_, ?_⟩
    · have : (i, c) ∈ n.sorted_chapters := by rw [hsplit]; simp
      rwa [Novel.sorted_chapters, mem_sortPairsByKey] at this
    · rw [← get_requirements_head_eq_spec]
      exact hhead
    · intro p hp hlt
      have hmem : p ∈ n.sorted_chapters := by
        rwa [Novel.sorted_chapters, mem_sortPairsByKey]
      rw [hsplit] at hmem
      rcases List.mem_append.mp hmem with hmem | hmem
      · exact hpre p hmem
      · rcases List.mem_cons.mp hmem with hmem | hmem
        · exfalso
          subst hmem
          simp at hlt
        · exfalso
          have hpw := pairwise_sortPairsByKey n.indexed_chapters
          rw [show sortPairsByKey n.indexed_chapters = n.sorted_chapters from rfl,
            hsplit] at hpw
          have := (List.pairwise_append.mp hpw).2
          have h2' := (List.pairwise_cons.mp this.1).1 p hmem
          exact absurd h2' (not_le_of_lt hlt)

/-- Claim C6 witness: a two-unit document where unit 3 only needs
translation and unit 7 needs everything; the scheduler returns unit 3 with
Translation (Summary/Ingestion/Annotation already satisfied there). -/
theorem c6_scan_order_witness :
    ∃ c, ((3 : Int), c) ∈ (Novel.mk
        [(7, Chapter.mk "later" none none false false),
         (3, Chapter.mk "early" none (some "s") true true)]
        (some "sg") (some []) (some "en")).indexed_chapters ∧
      "early" = c.original ∧
      firstRequirementSpec c = some Requirement.TRANSLATION ∧
      ∀ p ∈ (Novel.mk
        [(7, Chapter.mk "later" none none false false),
         (3, Chapter.mk "early" none (some "s") true true)]
        (some "sg") (some []) (some "en")).indexed_chapters,
          p.1 < 3 → p.2.get_requirements = [] :=
  (c6_scan_order
    (Novel.mk
      [(7, Chapter.mk "later" none none false false),
       (3, Chapter.mk "early" none (some "s") true true)]
      (some "sg") (some []) (some "en"))
    (by simp) (by simp) (by simp) (by decide)).2
    3 "early" Requirement.TRANSLATION (by decide)

/-! ### Unification: entity lookup on the heap -/

theorem entityAt_toArray (l : List Entity) (i : Nat) (h : i < l.length) :
    entityAt l.toArray i = l[i] := by
  simp [entityAt, Array.getD, h]

theorem unify_flat_groups (oldIdx newIdx : List Nat) :
    [oldIdx, newIdx].foldl (fun acc idxs => acc ++ idxs) [] = oldIdx ++ newIdx := by
  simp

theorem mem_unify_index (oldLen newLen i : Nat) (h : i < oldLen + newLen) :
    i ∈ List.range oldLen ++ (List.range newLen).map (fun j => j + oldLen) := by
  rcases lt_or_ge i oldLen with hlt | hge
  · exact List.mem_append_left _ (List.mem_range.mpr hlt)
  · refine List.mem_append_right _ ?_
    refine List.mem_map.mpr ⟨i - oldLen, List.mem_range.mpr ?_, ?_⟩
    · omega
    · omega

/-! ### Claim C3 machinery: an entity without strong names crashes
`_add_edges` -/

theorem entity_edges_empty (e : Entity) (h : e.strong_names = []) :
    entity_edges e = .error PyErr.indexError := by
  unfold entity_edges
  rw [h]

theorem add_edges_fold_error (heap : EntityHeap) (flat : List Nat) :
    ∀ acc : List (String × String),
    (∃ i ∈ flat, (entityAt heap i).strong_names = []) →
    flat.foldlM
      (fun acc i => do
        let es ← entity_edges (entityAt heap i)
        pure (acc ++ es))
      acc = .error PyErr.indexError := by
  induction flat with
  | nil => intro acc h; simp at h
  | cons j rest ih =>
    intro acc h
    by_cases hj : (entityAt heap j).strong_names = []
    · rw [List.foldlM_cons, entity_edges_empty _ hj]
      rfl
    · rw [List.foldlM_cons]
      cases hes : entity_edges (entityAt heap j) with
      | error err =>
        exfalso
        unfold entity_edges at hes
        cases hsn : (entityAt heap j).strong_names with
        | nil => exact hj hsn
        | cons a as => rw [hsn] at hes; cases hes
      | ok es =>
        have hex : ∃ i ∈ rest, (entityAt heap i).strong_names = [] := by
          obtain ⟨i, hi, hempty⟩ := h
          rcases List.mem_cons.mp hi with hi | hi
          · exact absurd (hi ▸ hempty) hj
          · exact ⟨i, hi, hempty⟩
        calc (Except.ok es >>= fun es =>
                List.foldlM _ (acc ++ es) rest) =
            List.foldlM _ (acc ++ es) rest := rfl
          _ = .error PyErr.indexError := ih _ hex

theorem add_edges_error_of_weak_only (heap : EntityHeap)
    (groups : List (List Nat))
    (h : ∃ i ∈ groups.foldl (fun acc idxs => acc ++ idxs) [],
      (entityAt heap i).strong_names = []) :
    add_edges heap groups = .error PyErr.indexError := by
  unfold add_edges
  exact add_edges_fold_error heap _ [] h

/-- Claim C3 (corrected): an input Entity whose names are all weak does
not pass through unchanged — `_add_edges` evaluates `strong_names[0]` on
its empty strong-name list, so `_unify_entities` raises `IndexError`; the
entity is neither merged nor returned. -/
theorem c3_weak_only_raises (old_entities new_entities : List Entity)
    (e : Entity) (hmem : e ∈ old_entities ++ new_entities)
    (hweak : e.strong_names = []) :
    unify_entities old_entities new_entities = .error PyErr.indexError ∧
    unify_result old_entities new_entities = .error PyErr.indexError := by
  obtain ⟨i, hi, hgi⟩ := List.mem_iff_getElem.mp hmem
  have hlen : i < old_entities.length + new_entities.length := by
    simpa [List.length_append] using hi
  have hflat : i ∈ (unifyGroups old_entities
      new_entities).foldl (fun acc idxs => acc ++ idxs) [] := by
    show i ∈ ([List.range old_entities.length,
      (List.range new_entities.length).map
        (fun j => j + old_entities.length)] :
      List (List Nat)).foldl (fun acc idxs => acc ++ idxs) []
    rw [unify_flat_groups]
    exact mem_unify_index _ _ _ hlen
  have hat : entityAt (unifyHeap old_entities new_entities) i = e := by
    show entityAt (old_entities ++ new_entities).toArray i = e
    rw [entityAt_toArray _ _ hi]
    exact hgi
  have herr : add_edges (unifyHeap old_entities new_entities)
      (unifyGroups old_entities new_entities) = .error PyErr.indexError :=
    add_edges_error_of_weak_only _ _ ⟨i, hflat, by rw [hat]; exact hweak⟩
  constructor
  · simp only [unify_entities]
    rw [herr]
    rfl
  · simp only [unify_result, unify_entities]
    rw [herr]
    rfl

/-- Claim C3 witness: a concrete weak-only entity makes the pipeline
raise `IndexError`. -/
theorem c3_weak_only_raises_witness :
    unify_entities []
      [⟨[⟨"the Captain", "Captain", true⟩], EntityType.CHARACTER, "", [0], []⟩] =
      .error PyErr.indexError ∧
    unify_result []
      [⟨[⟨"the Captain", "Captain", true⟩], EntityType.CHARACTER, "", [0], []⟩] =
      .error PyErr.indexError :=
  c3_weak_only_raises []
    [⟨[⟨"the Captain", "Captain", true⟩], EntityType.CHARACTER, "", [0], []⟩]
    ⟨[⟨"the Captain", "Captain", true⟩], EntityType.CHARACTER, "", [0], []⟩
    (by simp) rfl

/-- Claim C3 counterexample: the claim says a weak-only entity is still
returned unchanged in the output; on this concrete input the pipeline
instead raises, so no output list (in particular none containing the
entity) exists. -/
theorem c3_weak_only_counterexample :
    unify_result []
      [⟨[⟨"shadowy figure", "", true⟩], EntityType.CHARACTER, "", [4], []⟩] =
      .error PyErr.indexError ∧
    ¬ ∃ out, unify_result []
        [⟨[⟨"shadowy figure", "", true⟩], EntityType.CHARACTER, "", [4], []⟩] =
        .ok out ∧
      (⟨[⟨"shadowy figure", "", true⟩], EntityType.CHARACTER, "", [4], []⟩ :
        Entity) ∈ out := by
  refine ⟨rfl, ?_⟩
  rintro ⟨out, hout, -⟩
  rw [show unify_result []
      [⟨[⟨"shadowy figure", "", true⟩], EntityType.CHARACTER, "", [4], []⟩] =
      .error PyErr.indexError from rfl] at hout
  cases hout

/-- Claim C7 (corrected): in the spec's example scenario the two entities
share no *strong* name (`Jack Crowley` is weak on the new entity), so
`unify` merges nothing: it returns both entities unchanged — `Jack
Crowley` stays a strong entry on the existing entity and a separate weak
entry on the new one.  Moreover, when merging does happen, name
deduplication keeps the *base* entity's entry regardless of weakness: a
weak entry on the base survives a strong entry with the same name on the
other entity (third conjunct). -/
theorem c7_name_dedup_scenario :
    unify_result
      [⟨[⟨"Jack", "Jack", false⟩, ⟨"Jack Crowley", "Jack Crowley", false⟩],
        EntityType.CHARACTER, "", [1], []⟩]
      [⟨[⟨"Captain Crowley", "Captain Crowley", false⟩,
         ⟨"Jack Crowley", "Jack Crowley", true⟩],
        EntityType.CHARACTER, "", [2], []⟩] =
      .ok
        [⟨[⟨"Jack", "Jack", false⟩, ⟨"Jack Crowley", "Jack Crowley", false⟩],
          EntityType.CHARACTER, "", [1], []⟩,
         ⟨[⟨"Captain Crowley", "Captain Crowley", false⟩,
           ⟨"Jack Crowley", "Jack Crowley", true⟩],
          EntityType.CHARACTER, "", [2], []⟩] ∧
    (⟨[⟨"Captain Crowley", "Captain Crowley", false⟩,
       ⟨"Jack Crowley", "Jack Crowley", true⟩],
      EntityType.CHARACTER, "", [2], []⟩ : Entity).strong_names =
      ["Captain Crowley"] ∧
    Entity.merge_entity
      ⟨[⟨"Anchor", "", false⟩, ⟨"Shared", "", true⟩],
        EntityType.CHARACTER, "", [0], []⟩
      ⟨[⟨"Anchor", "", false⟩, ⟨"Shared", "", false⟩],
        EntityType.CHARACTER, "", [1], []⟩ =
      .ok ⟨[⟨"Anchor", "", false⟩, ⟨"Shared", "", true⟩],
        EntityType.CHARACTER, "", [0, 1], []⟩ :=
  ⟨rfl, rfl, rfl⟩

/-- Claim C7 counterexample: the claim says `unify` returns **one** merged
Entity holding all three names with a single strong `Jack Crowley` entry;
on the scenario input the pipeline returns **two** entities. -/
theorem c7_name_dedup_counterexample :
    (unify_result
      [⟨[⟨"Jack", "Jack", false⟩, ⟨"Jack Crowley", "Jack Crowley", false⟩],
        EntityType.CHARACTER, "", [1], []⟩]
      [⟨[⟨"Captain Crowley", "Captain Crowley", false⟩,
         ⟨"Jack Crowley", "Jack Crowley", true⟩],
        EntityType.CHARACTER, "", [2], []⟩]).map List.length = .ok 2 ∧
    ¬ ∃ m, unify_result
      [⟨[⟨"Jack", "Jack", false⟩, ⟨"Jack Crowley", "Jack Crowley", false⟩],
        EntityType.CHARACTER, "", [1], []⟩]
      [⟨[⟨"Captain Crowley", "Captain Crowley", false⟩,
         ⟨"Jack Crowley", "Jack Crowley", true⟩],
        EntityType.CHARACTER, "", [2], []⟩] = .ok [m] := by
  refine ⟨rfl, ?_⟩
  rintro ⟨m, hm⟩
  have h2 : (unify_result
      [⟨[⟨"Jack", "Jack", false⟩, ⟨"Jack Crowley", "Jack Crowley", false⟩],
        EntityType.CHARACTER, "", [1], []⟩]
      [⟨[⟨"Captain Crowley", "Captain Crowley", false⟩,
         ⟨"Jack Crowley", "Jack Crowley", true⟩],
        EntityType.CHARACTER, "", [2], []⟩]).map List.length = .ok 2 := rfl
  rw [hm] at h2
  cases h2

/-! ### Claim C8 machinery: what `merge_entity` and `_combine_entities`
do to `chapter_idx` -/

theorem add_name_entry_chapter_idx (e : Entity) (entry : NameEntry) :
    (e.add_name_entry entry).chapter_idx = e.chapter_idx := by
  unfold Entity.add_name_entry
  split <;> rfl

theorem add_name_entry_fold_chapter_idx (l : List NameEntry)
    (current_names : List String) :
    ∀ e : Entity,
    (l.foldl
      (fun acc entry =>
        if current_names.contains entry.name then acc
        else acc.add_name_entry entry) e).chapter_idx = e.chapter_idx := by
  induction l with
  | nil => intro e; rfl
  | cons entry rest ih =>
    intro e
    rw [List.foldl_cons]
    by_cases h : current_names.contains entry.name
    · rw [if_pos h]; exact ih e
    · rw [if_neg h, ih, add_name_entry_chapter_idx]

theorem add_name_entry_names_grow (e : Entity) (entry : NameEntry) :
    e.names <+: (e.add_name_entry entry).names := by
  unfold Entity.add_name_entry
  split
  · exact List.prefix_refl _
  · exact ⟨[entry], rfl⟩

theorem add_name_entry_fold_names_grow (l : List NameEntry)
    (current_names : List String) :
    ∀ e : Entity,
    e.names <+: (l.foldl
      (fun acc entry =>
        if current_names.contains entry.name then acc
        else acc.add_name_entry entry) e).names := by
  induction l with
  | nil => intro e; exact List.prefix_refl _
  | cons entry rest ih =>
    intro e
    rw [List.foldl_cons]
    by_cases h : current_names.contains entry.name
    · rw [if_pos h]; exact ih e
    · rw [if_neg h]
      exact List.IsPrefix.trans (add_name_entry_names_grow e entry) (ih _)

theorem merge_entity_spec (e o m : Entity)
    (h : e.merge_entity o = .ok m) :
    m.chapter_idx = e.chapter_idx ++ o.chapter_idx ∧ e.names <+: m.names := by
  unfold Entity.merge_entity at h
  cases ho : o.names with
  | nil => rw [ho] at h; cases h
  | cons a as =>
    rw [ho] at h
    cases he : e.names with
    | nil => rw [he] at h; cases h
    | cons b bs =>
      rw [he] at h
      simp only [Except.ok.injEq] at h
      subst h
      constructor
      · simp only []
        rw [add_name_entry_fold_chapter_idx]
      · simp only []
        rw [← he]
        exact add_name_entry_fold_names_grow (a :: as)
          (e.names.map NameEntry.name) e

theorem merge_entity_names_ne_nil (e o m : Entity)
    (h : e.merge_entity o = .ok m) (he : e.names ≠ []) : m.names ≠ [] := by
  obtain ⟨-, hpre⟩ := merge_entity_spec e o m h
  intro hm
  rw [hm] at hpre
  exact he (List.prefix_nil.mp hpre)

theorem entityAt_setD_self (heap : EntityHeap) (i : Nat) (v : Entity)
    (h : i < heap.size) : entityAt (heap.setD i v) i = v := by
  unfold entityAt Array.setD
  rw [dif_pos h]
  have hsz : i < (heap.set ⟨i, h⟩ v).size := by
    simpa using h
  rw [Array.getD, dif_pos hsz]
  simp

theorem entityAt_setD_ne (heap : EntityHeap) (i j : Nat) (v : Entity)
    (h : j ≠ i) : entityAt (heap.setD i v) j = entityAt heap j := by
  unfold entityAt Array.setD
  split
  · next hi =>
    rw [Array.getD, Array.getD]
    by_cases hj : j < heap.size
    · have hj' : j < (heap.set ⟨i, hi⟩ v).size := by simpa using hj
      rw [dif_pos hj', dif_pos hj]
      exact Array.get_set_ne heap ⟨i, hi⟩ v hj (fun hc => h hc.symm)
    · have hj' : ¬ j < (heap.set ⟨i, hi⟩ v).size := by simpa using hj
      rw [dif_neg hj', dif_neg hj]
  · rfl

theorem size_setD (heap : EntityHeap) (i : Nat) (v : Entity) :
    (heap.setD i v).size = heap.size := by
  unfold Array.setD
  split <;> simp

theorem combine_fold_spec (rest : List Nat) :
    ∀ (heap : EntityHeap) (base : Nat), base < heap.size →
    (∀ i ∈ rest, i ≠ base) →
    ∀ h', rest.foldlM
        (fun h i => do
          let merged ← (entityAt h base).merge_entity (entityAt h i)
          pure (h.setD base merged))
        heap = .ok h' →
    (entityAt h' base).chapter_idx =
      (entityAt heap base).chapter_idx ++
        (rest.map (fun i => (entityAt heap i).chapter_idx)).flatten ∧
    (∀ j, j ≠ base → entityAt h' j = entityAt heap j) ∧
    h'.size = heap.size := by
  induction rest with
  | nil =>
    intro heap base hbase hne h' hok
    cases hok
    exact ⟨by simp, fun j _ => rfl, rfl⟩
  | cons i rest' ih =>
    intro heap base hbase hne h' hok
    rw [List.foldlM_cons] at hok
    cases hm : (entityAt heap base).merge_entity (entityAt heap i) with
    | error err => rw [hm] at hok; cases hok
    | ok merged =>
      rw [hm] at hok
      have hok' : rest'.foldlM
          (fun h i => do
            let merged ← (entityAt h base).merge_entity (entityAt h i)
            pure (h.setD base merged))
          (heap.setD base merged) = .ok h' := hok
      have hbase1 : base < (heap.setD base merged).size := by
        rw [size_setD]; exact hbase
      have hne' : ∀ k ∈ rest', k ≠ base := fun k hk =>
        hne k (List.mem_cons_of_mem _ hk)
      obtain ⟨hch, hframe, hsz⟩ := ih _ base hbase1 hne' h' hok'
      have hat_base : entityAt (heap.setD base merged) base = merged :=
        entityAt_setD_self heap base merged hbase
      have hmerged := merge_entity_spec _ _ _ hm
      refine ⟨?_, ?_, ?_⟩
      · rw [hch, hat_base, hmerged.1]
        have hmap : rest'.map
            (fun k => (entityAt (heap.setD base merged) k).chapter_idx) =
            rest'.map (fun k => (entityAt heap k).chapter_idx) := by
          refine List.map_congr_left ?_
          intro k hk
          rw [entityAt_setD_ne heap base k merged (hne' k hk)]
        rw [hmap]
        simp [List.map_cons, List.flatten_cons, List.append_assoc]
      · intro j hj
        rw [hframe j hj, entityAt_setD_ne heap base j merged hj]
      · rw [hsz, size_setD]

theorem combine_component_cons (heap : EntityHeap) (base : Nat)
    (rest : List Nat) :
    combine_component heap (base :: rest) =
      (do
        let h ← rest.foldlM
          (fun h i => do
            let merged ← (entityAt h base).merge_entity (entityAt h i)
            pure (h.setD base merged))
          heap
        pure (base, h)) := rfl

/-- Claim C8 (corrected): the unit indices of a merged entity are **not**
a set union — `merge_entity` extends `chapter_idx` with plain list
concatenation, so the merged entity produced by `_combine_entities` for a
component carries the concatenation of the source lists (duplicates
preserved), in merge order. -/
theorem c8_chapter_idx_concat (heap : EntityHeap) (base : Nat)
    (rest : List Nat) (b : Nat) (h' : EntityHeap)
    (hbase : base < heap.size) (hrest : ∀ i ∈ rest, i ≠ base)
    (hok : combine_component heap (base :: rest) = .ok (b, h')) :
    b = base ∧
    (entityAt h' base).chapter_idx =
      (entityAt heap base).chapter_idx ++
        (rest.map (fun i => (entityAt heap i).chapter_idx)).flatten := by
  rw [combine_component_cons] at hok
  cases hfold : rest.foldlM
      (fun h i => do
        let merged ← (entityAt h base).merge_entity (entityAt h i)
        pure (h.setD base merged))
      heap with
  | error err => rw [hfold] at hok; cases hok
  | ok hfin =>
    rw [hfold] at hok
    have hok' : (Except.ok (base, hfin) : Except PyErr (Nat × EntityHeap)) =
        .ok (b, h') := hok
    simp only [Except.ok.injEq, Prod.mk.injEq] at hok'
    obtain ⟨hb, hh⟩ := hok'
    subst hb
    subst hh
    exact ⟨rfl, (combine_fold_spec rest heap base hbase hrest hfin hfold).1⟩

/-- Claim C8 witness: merging the two-entity component `[1, 0]` of the
counterexample heap concatenates the chapter lists `[3] ++ [3]`. -/
theorem c8_chapter_idx_concat_witness :
    ∃ h' : EntityHeap,
      combine_component
        (List.toArray
          [⟨[⟨"Jack", "Jack", false⟩, ⟨"Alpha", "Alpha", false⟩],
            EntityType.CHARACTER, "", [3], []⟩,
           ⟨[⟨"Jack", "Jack", false⟩, ⟨"Beta", "Beta", false⟩],
            EntityType.CHARACTER, "", [3], []⟩])
        [1, 0] = .ok (1, h') ∧
      (entityAt h' 1).chapter_idx = [3] ++ [[3]].flatten := by
  refine ⟨_, rfl, ?_⟩
  have h := c8_chapter_idx_concat
    (List.toArray
      [⟨[⟨"Jack", "Jack", false⟩, ⟨"Alpha", "Alpha", false⟩],
        EntityType.CHARACTER, "", [3], []⟩,
       ⟨[⟨"Jack", "Jack", false⟩, ⟨"Beta", "Beta", false⟩],
        EntityType.CHARACTER, "", [3], []⟩])
    1 [0] _ _ (by decide) (by decide) rfl
  exact h.2

/-- Claim C8 counterexample: two entities that share the strong name
`Jack` and both appear in unit 3 are folded by `unify` into one entity
whose `chapter_idx` is `[3, 3]` — the index 3 appears twice, refuting the
set-union claim. -/
theorem c8_chapter_idx_concat_counterexample :
    unify_result []
      [⟨[⟨"Jack", "Jack", false⟩, ⟨"Alpha", "Alpha", false⟩],
        EntityType.CHARACTER, "", [3], []⟩,
       ⟨[⟨"Jack", "Jack", false⟩, ⟨"Beta", "Beta", false⟩],
        EntityType.CHARACTER, "", [3], []⟩] =
      .ok [⟨[⟨"Jack", "Jack", false⟩, ⟨"Beta", "Beta", false⟩,
             ⟨"Alpha", "Alpha", false⟩],
            EntityType.CHARACTER, "", [3, 3], []⟩] ∧
    ¬ ([(3 : Int), 3].Nodup) :=
  ⟨rfl, by decide⟩

/-! ### Claim C10 machinery: `_combine_entities` writes only the base
object of each component and returns those objects -/

theorem combine_fold_frame (rest : List Nat) (base : Nat) :
    ∀ (heap h' : EntityHeap),
    rest.foldlM
      (fun h i => do
        let merged ← (entityAt h base).merge_entity (entityAt h i)
        pure (h.setD base merged))
      heap = .ok h' →
    ∀ j, j ≠ base → entityAt h' j = entityAt heap j := by
  induction rest with
  | nil =>
    intro heap h' hok j hj
    cases hok
    rfl
  | cons i rest' ih =>
    intro heap h' hok j hj
    rw [List.foldlM_cons] at hok
    cases hm : (entityAt heap base).merge_entity (entityAt heap i) with
    | error err => rw [hm] at hok; cases hok
    | ok merged =>
      rw [hm] at hok
      have := ih (heap.setD base merged) h' hok j hj
      rw [this, entityAt_setD_ne heap base j merged hj]

theorem combine_component_head (heap : EntityHeap) (idxs : List Nat)
    (b : Nat) (h' : EntityHeap)
    (hok : combine_component heap idxs = .ok (b, h')) :
    idxs.head? = some b ∧ ∀ j, j ≠ b → entityAt h' j = entityAt heap j := by
  cases idxs with
  | nil => cases hok
  | cons base rest =>
    rw [combine_component_cons] at hok
    cases hfold : rest.foldlM
        (fun h i => do
          let merged ← (entityAt h base).merge_entity (entityAt h i)
          pure (h.setD base merged))
        heap with
    | error err => rw [hfold] at hok; cases hok
    | ok hfin =>
      rw [hfold] at hok
      have hok' : (Except.ok (base, hfin) : Except PyErr (Nat × EntityHeap)) =
          .ok (b, h') := hok
      simp only [Except.ok.injEq, Prod.mk.injEq] at hok'
      obtain ⟨hb, hh⟩ := hok'
      subst hb
      subst hh
      exact ⟨rfl, combine_fold_frame rest base heap hfin hfold⟩

theorem combine_entities_spec (related : List (List Nat)) :
    ∀ (heap : EntityHeap) (acc0 outs : List Nat) (h' : EntityHeap),
    related.foldlM
      (fun acc idxs => do
        let (b, h) ← combine_component acc.2 idxs
        pure (acc.1 ++ [b], h))
      (acc0, heap) = .ok (outs, h') →
    ∃ bs, outs = acc0 ++ bs ∧
      List.Forall₂ (fun (L : List Nat) b => L.head? = some b) related bs ∧
      ∀ j, j ∉ bs → entityAt h' j = entityAt heap j := by
  induction related with
  | nil =>
    intro heap acc0 outs h' hok
    have hok' : (Except.ok (acc0, heap) :
        Except PyErr (List Nat × EntityHeap)) = .ok (outs, h') := hok
    simp only [Except.ok.injEq, Prod.mk.injEq] at hok'
    obtain ⟨ho, hh⟩ := hok'
    subst ho
    subst hh
    exact ⟨[], by simp, List.Forall₂.nil, fun j _ => rfl⟩
  | cons L related' ih =>
    intro heap acc0 outs h' hok
    rw [List.foldlM_cons] at hok
    dsimp only at hok
    cases hc : combine_component heap L with
    | error err =>
      rw [hc] at hok
      cases (show (Except.error err :
        Except PyErr (List Nat × EntityHeap)) = .ok (outs, h') from hok)
    | ok p =>
      rw [hc] at hok
      obtain ⟨b, h1⟩ := p
      obtain ⟨bs', houts, hforall, hframe⟩ := ih h1 (acc0 ++ [b]) outs h' hok
      obtain ⟨hhead, hcframe⟩ := combine_component_head heap L b h1 hc
      refine ⟨b :: bs', by rw [houts]; simp, List.Forall₂.cons hhead hforall, ?_⟩
      intro j hj
      have hjb : j ≠ b := fun hjb => hj (hjb ▸ List.mem_cons_self _ _)
      have hjbs : j ∉ bs' := fun hjbs => hj (List.mem_cons_of_mem _ hjbs)
      rw [hframe j hjbs, hcframe j hjb]

theorem unify_entities_eq_of_edges (old_entities new_entities : List Entity)
    (edges : List (String × String))
    (h : add_edges (unifyHeap old_entities new_entities)
      (unifyGroups old_entities new_entities) = .ok edges) :
    unify_entities old_entities new_entities =
      (find_related_entities
        (map_names (old_entities ++ new_entities).toArray
          [List.range old_entities.length,
           (List.range new_entities.length).map
             (fun i => i + old_entities.length)])
        (connected_components
          (add_nodes (old_entities ++ new_entities).toArray
            [List.range old_entities.length,
             (List.range new_entities.length).map
               (fun i => i + old_entities.length)])
          edges)) >>= fun related =>
        combine_entities (old_entities ++ new_entities).toArray related := by
  simp only [unify_entities]
  rw [h]
  rfl

theorem unify_related_eq_of_edges (old_entities new_entities : List Entity)
    (edges : List (String × String))
    (h : add_edges (unifyHeap old_entities new_entities)
      (unifyGroups old_entities new_entities) = .ok edges) :
    unify_related old_entities new_entities =
      find_related_entities
        (map_names (old_entities ++ new_entities).toArray
          [List.range old_entities.length,
           (List.range new_entities.length).map
             (fun i => i + old_entities.length)])
        (connected_components
          (add_nodes (old_entities ++ new_entities).toArray
            [List.range old_entities.length,
             (List.range new_entities.length).map
               (fun i => i + old_entities.length)])
          edges) := by
  simp only [unify_related]
  rw [h]
  rfl

/-- Claim C10 (confirmed): `unify` does not build fresh merged records —
for every connected component the returned "object" is the component's
first source Entity (its heap slot, mutated in place by `merge_entity`),
and no heap slot other than the returned ones changes.  In particular
Entity objects supplied as the existing entity set can be mutated as a
side effect. -/
theorem c10_unify_in_place (old_entities new_entities : List Entity)
    (outs : List Nat) (h' : EntityHeap)
    (hok : unify_entities old_entities new_entities = .ok (outs, h')) :
    ∃ related, unify_related old_entities new_entities = .ok related ∧
      List.Forall₂ (fun (L : List Nat) b => L.head? = some b) related outs ∧
      ∀ j, j ∉ outs → entityAt h' j =
        entityAt ((old_entities ++ new_entities).toArray) j := by
  cases hedges : add_edges (unifyHeap old_entities new_entities)
      (unifyGroups old_entities new_entities) with
  | error err =>
    exfalso
    simp only [unify_entities] at hok
    rw [hedges] at hok
    cases hok
  | ok edges =>
    rw [unify_entities_eq_of_edges _ _ _ hedges] at hok
    cases hrel : find_related_entities
        (map_names (old_entities ++ new_entities).toArray
          [List.range old_entities.length,
           (List.range new_entities.length).map
             (fun i => i + old_entities.length)])
        (connected_components
          (add_nodes (old_entities ++ new_entities).toArray
            [List.range old_entities.length,
             (List.range new_entities.length).map
               (fun i => i + old_entities.length)])
          edges) with
    | error err =>
      exfalso
      rw [hrel] at hok
      cases hok
    | ok related =>
      rw [hrel] at hok
      have hcomb : combine_entities (old_entities ++ new_entities).toArray
          related = .ok (outs, h') := hok
      refine ⟨related, ?_, ?_⟩
      · rw [unify_related_eq_of_edges _ _ _ hedges]
        exact hrel
      · have hfold : related.foldlM
            (fun acc idxs => do
              let (b, h) ← combine_component acc.2 idxs
              pure (acc.1 ++ [b], h))
            (([] : List Nat), (old_entities ++ new_entities).toArray) =
            .ok (outs, h') := hcomb
        obtain ⟨bs, houts, hforall, hframe⟩ :=
          combine_entities_spec related _ [] outs h' hfold
        simp only [List.nil_append] at houts
        subst houts
        exact ⟨hforall, hframe⟩

/-- Claim C10 witness: unifying a stored entity `{Alpha, Jack}` with a new
duplicate `{Jack, Beta}` returns exactly the stored object (heap slot 0),
whose value has changed in place (names appended, `chapter_idx`
extended), while the other slot is untouched. -/
theorem c10_unify_in_place_witness :
    (∃ related,
      unify_related
        [⟨[⟨"Alpha", "Alpha", false⟩, ⟨"Jack", "Jack", false⟩],
          EntityType.CHARACTER, "", [0], []⟩]
        [⟨[⟨"Jack", "Jack", false⟩, ⟨"Beta", "Beta", false⟩],
          EntityType.CHARACTER, "", [1], []⟩] = .ok related ∧
      List.Forall₂ (fun (L : List Nat) b => L.head? = some b) related [0] ∧
      ∀ j, j ∉ ([0] : List Nat) →
        entityAt (List.toArray
          ([⟨[⟨"Alpha", "Alpha", false⟩, ⟨"Jack", "Jack", false⟩,
              ⟨"Beta", "Beta", false⟩], EntityType.CHARACTER, "", [0, 1], []⟩,
            ⟨[⟨"Jack", "Jack", false⟩, ⟨"Beta", "Beta", false⟩],
             EntityType.CHARACTER, "", [1], []⟩] : List Entity)) j =
        entityAt ((([⟨[⟨"Alpha", "Alpha", false⟩, ⟨"Jack", "Jack", false⟩],
          EntityType.CHARACTER, "", [0], []⟩] ++
          [⟨[⟨"Jack", "Jack", false⟩, ⟨"Beta", "Beta", false⟩],
            EntityType.CHARACTER, "", [1], []⟩] : List Entity)).toArray) j) ∧
    entityAt (List.toArray
      ([⟨[⟨"Alpha", "Alpha", false⟩, ⟨"Jack", "Jack", false⟩,
          ⟨"Beta", "Beta", false⟩], EntityType.CHARACTER, "", [0, 1], []⟩,
        ⟨[⟨"Jack", "Jack", false⟩, ⟨"Beta", "Beta", false⟩],
         EntityType.CHARACTER, "", [1], []⟩] : List Entity)) 0 ≠
    entityAt ((([⟨[⟨"Alpha", "Alpha", false⟩, ⟨"Jack", "Jack", false⟩],
      EntityType.CHARACTER, "", [0], []⟩] ++
      [⟨[⟨"Jack", "Jack", false⟩, ⟨"Beta", "Beta", false⟩],
        EntityType.CHARACTER, "", [1], []⟩] : List Entity)).toArray) 0 :=
  ⟨c10_unify_in_place
    [⟨[⟨"Alpha", "Alpha", false⟩, ⟨"Jack", "Jack", false⟩],
      EntityType.CHARACTER, "", [0], []⟩]
    [⟨[⟨"Jack", "Jack", false⟩, ⟨"Beta", "Beta", false⟩],
      EntityType.CHARACTER, "", [1], []⟩]
    [0]
    (List.toArray
      [⟨[⟨"Alpha", "Alpha", false⟩, ⟨"Jack", "Jack", false⟩,
         ⟨"Beta", "Beta", false⟩], EntityType.CHARACTER, "", [0, 1], []⟩,
       ⟨[⟨"Jack", "Jack", false⟩, ⟨"Beta", "Beta", false⟩],
        EntityType.CHARACTER, "", [1], []⟩])
    rfl, by decide⟩

/-! ### Claim C4 machinery: stepping the compiled translation workflow -/

theorem wRun_succ (fns : WorkflowFns) (m fuel : Nat) (n : WNode)
    (s : TranslationState) (h : n ≠ WNode.END) :
    wRun fns m (fuel + 1) (n, s) =
      ((n :: (wRun fns m fuel (wStep fns m (n, s))).1),
       (wRun fns m fuel (wStep fns m (n, s))).2) := by
  conv_lhs => unfold wRun
  rw [if_neg h]

theorem wRun_end (fns : WorkflowFns) (m fuel : Nat) (s : TranslationState) :
    wRun fns m fuel (WNode.END, s) = ([], (WNode.END, s)) := by
  cases fuel with
  | zero => rfl
  | succ n =>
    unfold wRun
    rw [if_pos rfl]

/-- Claim C4 (corrected): with `max_feedback_loops = 3` and a junior
editor whose feedback never contains the approval marker, the workflow
terminates after exactly **3** `translator` executions, **2**
`junior_editor` executions and one `fluency_editor` execution — the
counter check sits between `translator` and `junior_editor`, so the third
cycle routes straight to `fluency_editor` without a third review. -/
theorem c4_bounded_loop (fns : WorkflowFns) (k : Nat)
    (text sg lang : String)
    (hrej : ∀ s, strContains (fns.reviewFn s) APPROVED_RESPONSE_MARKER = false) :
    ∃ sfin : TranslationState,
      wRun fns 3 (k + 11)
        (WNode.style_analyzer, initialTranslationState text sg lang) =
        ([WNode.style_analyzer, WNode.language_detector, WNode.translator,
          WNode.feedback_router, WNode.junior_editor, WNode.translator,
          WNode.feedback_router, WNode.junior_editor, WNode.translator,
          WNode.feedback_router, WNode.fluency_editor],
         (WNode.END, sfin)) ∧
      sfin.feedback_rout_loops = some 3 ∧
      [WNode.style_analyzer, WNode.language_detector, WNode.translator,
       WNode.feedback_router, WNode.junior_editor, WNode.translator,
       WNode.feedback_router, WNode.junior_editor, WNode.translator,
       WNode.feedback_router, WNode.fluency_editor].count WNode.translator = 3 ∧
      [WNode.style_analyzer, WNode.language_detector, WNode.translator,
       WNode.feedback_router, WNode.junior_editor, WNode.translator,
       WNode.feedback_router, WNode.junior_editor, WNode.translator,
       WNode.feedback_router,
       WNode.fluency_editor].count WNode.junior_editor = 2 ∧
      [WNode.style_analyzer, WNode.language_detector, WNode.translator,
       WNode.feedback_router, WNode.junior_editor, WNode.translator,
       WNode.feedback_router, WNode.junior_editor, WNode.translator,
       WNode.feedback_router,
       WNode.fluency_editor].count WNode.fluency_editor = 1 := by
  set s0 : TranslationState := initialTranslationState text sg lang with hs0
  set s1 : TranslationState := { s0 with style_guide := fns.styleFn s0 } with hs1
  set s2 : TranslationState := { s1 with language := fns.langFn s1 } with hs2
  set s3 : TranslationState := { s2 with translation := fns.translateFn s2 } with hs3
  set s4 : TranslationState := increment_feedback s3 with hs4
  set s5 : TranslationState := { s4 with feedback := fns.reviewFn s4 } with hs5
  set s6 : TranslationState := { s5 with translation := fns.translateFn s5 } with hs6
  set s7 : TranslationState := increment_feedback s6 with hs7
  set s8 : TranslationState := { s7 with feedback := fns.reviewFn s7 } with hs8
  set s9 : TranslationState := { s8 with translation := fns.translateFn s8 } with hs9
  set s10 : TranslationState := increment_feedback s9 with hs10
  set s11 : TranslationState := { s10 with fluent_translation := fns.fluencyFn s10 } with hs11
  have hstep1 : wStep fns 3 (WNode.style_analyzer, s0) = (WNode.language_detector, s1) := rfl
  have hstep2 : wStep fns 3 (WNode.language_detector, s1) = (WNode.translator, s2) := rfl
  have hstep3 : wStep fns 3 (WNode.translator, s2) = (WNode.feedback_router, s3) := rfl
  have hstep4 : wStep fns 3 (WNode.feedback_router, s3) = (WNode.junior_editor, s4) := rfl
  have hrev1 : route_junior_pass s5 = false := hrej s4
  have hstep5 : wStep fns 3 (WNode.junior_editor, s4) = (WNode.translator, s5) := by
    show (if route_junior_pass s5 then (WNode.fluency_editor, s5)
      else (WNode.translator, s5)) = (WNode.translator, s5)
    rw [hrev1]
    rfl
  have hstep6 : wStep fns 3 (WNode.translator, s5) = (WNode.feedback_router, s6) := rfl
  have hstep7 : wStep fns 3 (WNode.feedback_router, s6) = (WNode.junior_editor, s7) := rfl
  have hrev2 : route_junior_pass s8 = false := hrej s7
  have hstep8 : wStep fns 3 (WNode.junior_editor, s7) = (WNode.translator, s8) := by
    show (if route_junior_pass s8 then (WNode.fluency_editor, s8)
      else (WNode.translator, s8)) = (WNode.translator, s8)
    rw [hrev2]
    rfl
  have hstep9 : wStep fns 3 (WNode.translator, s8) = (WNode.feedback_router, s9) := rfl
  have hstep10 : wStep fns 3 (WNode.feedback_router, s9) = (WNode.fluency_editor, s10) := rfl
  have hstep11 : wStep fns 3 (WNode.fluency_editor, s10) = (WNode.END, s11) := rfl
  have hrun : wRun fns 3 (k + 11) (WNode.style_analyzer, s0) =
      ([WNode.style_analyzer, WNode.language_detector, WNode.translator,
        WNode.feedback_router, WNode.junior_editor, WNode.translator,
        WNode.feedback_router, WNode.junior_editor, WNode.translator,
        WNode.feedback_router, WNode.fluency_editor],
       (WNode.END, s11)) := by
    rw [show k + 11 = (k + 10) + 1 from rfl,
      wRun_succ fns 3 (k + 10) WNode.style_analyzer s0 (by decide), hstep1]
    rw [show k + 10 = (k + 9) + 1 from rfl,
      wRun_succ fns 3 (k + 9) WNode.language_detector s1 (by decide), hstep2]
    rw [show k + 9 = (k + 8) + 1 from rfl,
      wRun_succ fns 3 (k + 8) WNode.translator s2 (by decide), hstep3]
    rw [show k + 8 = (k + 7) + 1 from rfl,
      wRun_succ fns 3 (k + 7) WNode.feedback_router s3 (by decide), hstep4]
    rw [show k + 7 = (k + 6) + 1 from rfl,
      wRun_succ fns 3 (k + 6) WNode.junior_editor s4 (by decide), hstep5]
    rw [show k + 6 = (k + 5) + 1 from rfl,
      wRun_succ fns 3 (k + 5) WNode.translator s5 (by decide), hstep6]
    rw [show k + 5 = (k + 4) + 1 from rfl,
      wRun_succ fns 3 (k + 4) WNode.feedback_router s6 (by decide), hstep7]
    rw [show k + 4 = (k + 3) + 1 from rfl,
      wRun_succ fns 3 (k + 3) WNode.junior_editor s7 (by decide), hstep8]
    rw [show k + 3 = (k + 2) + 1 from rfl,
      wRun_succ fns 3 (k + 2) WNode.translator s8 (by decide), hstep9]
    rw [show k + 2 = (k + 1) + 1 from rfl,
      wRun_succ fns 3 (k + 1) WNode.feedback_router s9 (by decide), hstep10]
    rw [show k + 1 = k + 1 from rfl,
      wRun_succ fns 3 k WNode.fluency_editor s10 (by decide), hstep11]
    rw [wRun_end]
  refine ⟨s11, hrun, ?_, by decide, by decide, by decide⟩
  show (increment_feedback s9).feedback_rout_loops = some 3
  rw [hs9, hs8, hs7, hs6, hs5, hs4, hs3, hs2, hs1, hs0]
  rfl

/-- Claim C4 witness: a concrete always-rejecting reviewer. -/
theorem c4_bounded_loop_witness :
    ∃ sfin : TranslationState,
      wRun ⟨fun _ => "sg", fun _ => "en", fun _ => "tr",
            fun _ => "needs work", fun _ => "fl"⟩ 3 (0 + 11)
        (WNode.style_analyzer, initialTranslationState "text" "" "") =
        ([WNode.style_analyzer, WNode.language_detector, WNode.translator,
          WNode.feedback_router, WNode.junior_editor, WNode.translator,
          WNode.feedback_router, WNode.junior_editor, WNode.translator,
          WNode.feedback_router, WNode.fluency_editor],
         (WNode.END, sfin)) ∧
      sfin.feedback_rout_loops = some 3 ∧
      [WNode.style_analyzer, WNode.language_detector, WNode.translator,
       WNode.feedback_router, WNode.junior_editor, WNode.translator,
       WNode.feedback_router, WNode.junior_editor, WNode.translator,
       WNode.feedback_router, WNode.fluency_editor].count WNode.translator = 3 ∧
      [WNode.style_analyzer, WNode.language_detector, WNode.translator,
       WNode.feedback_router, WNode.junior_editor, WNode.translator,
       WNode.feedback_router, WNode.junior_editor, WNode.translator,
       WNode.feedback_router,
       WNode.fluency_editor].count WNode.junior_editor = 2 ∧
      [WNode.style_analyzer, WNode.language_detector, WNode.translator,
       WNode.feedback_router, WNode.junior_editor, WNode.translator,
       WNode.feedback_router, WNode.junior_editor, WNode.translator,
       WNode.feedback_router,
       WNode.fluency_editor].count WNode.fluency_editor = 1 :=
  c4_bounded_loop
    ⟨fun _ => "sg", fun _ => "en", fun _ => "tr",
     fun _ => "needs work", fun _ => "fl"⟩ 0 "text" "" ""
    (fun _ => rfl)

/-- Claim C4 counterexample: the claim reads "exactly 3 Translate/Review
cycles plus one FluencyFinalize"; with an always-rejecting reviewer the
`junior_editor` node runs only **2** times, not 3 — the counter reaches
the bound before the third review. -/
theorem c4_bounded_loop_counterexample :
    (wRun ⟨fun _ => "sg", fun _ => "en", fun _ => "tr",
           fun _ => "needs work", fun _ => "fl"⟩ 3 20
      (WNode.style_analyzer,
       initialTranslationState "text" "" "")).1.count
        WNode.junior_editor = 2 ∧
    ¬ ((wRun ⟨fun _ => "sg", fun _ => "en", fun _ => "tr",
              fun _ => "needs work", fun _ => "fl"⟩ 3 20
      (WNode.style_analyzer,
       initialTranslationState "text" "" "")).1.count
        WNode.junior_editor = 3) := by
  refine ⟨rfl, ?_⟩
  intro hc
  rw [show (wRun ⟨fun _ => "sg", fun _ => "en", fun _ => "tr",
        fun _ => "needs work", fun _ => "fl"⟩ 3 20
      (WNode.style_analyzer,
       initialTranslationState "text" "" "")).1.count
        WNode.junior_editor = 2 from rfl] at hc
  cases hc

/-! ### Claim C9: the Setup dispatch path of `process_next_task` -/

theorem get_task_setup_some (n : Novel)
    (hunset : n.style_guide = none ∨ n.genres = none ∨ n.language = none)
    (hne : n.indexed_chapters ≠ []) :
    ∃ t, n.get_task = some (-1, t, Requirement.SETUP) := by
  have hreq : n.get_novel_requirements = some Requirement.SETUP := by
    unfold Novel.get_novel_requirements
    rw [if_pos hunset]
  have hs : n.sorted_chapters ≠ [] := by
    unfold Novel.sorted_chapters
    rw [Ne, sortPairsByKey_eq_nil_iff]
    exact hne
  cases hsc : n.sorted_chapters with
  | nil => exact absurd hsc hs
  | cons hd tl =>
    obtain ⟨i, c⟩ := hd
    refine ⟨c.original, ?_⟩
    unfold Novel.get_task
    rw [hreq, hsc]

/-- Claim C9 (confirmed): whenever `Novel.get_task` hands back a Setup
task (some setup field unset and at least one chapter loaded),
`NovelTranslator.process_next_task` raises `AttributeError` while building
the membership list `[Requirement.STYLE_GUIDE, Requirement.GENRES,
Requirement.LANGUAGE]` — `STYLE_GUIDE` is not a member of the
`Requirement` enum — before any workflow is invoked, so the Setup
requirement can never be completed through `process_next_task`. -/
theorem c9_setup_dispatch_error (n : Novel)
    (hunset : n.style_guide = none ∨ n.genres = none ∨ n.language = none)
    (hne : n.indexed_chapters ≠ []) :
    process_next_task n = .error (PyErr.attributeError "STYLE_GUIDE") := by
  obtain ⟨t, ht⟩ := get_task_setup_some n hunset hne
  simp only [process_next_task]
  rw [ht]
  rfl

/-- Claim C9 witness: a fresh one-chapter novel with no setup fields. -/
theorem c9_setup_dispatch_error_witness :
    process_next_task
      (Novel.mk [(0, Chapter.mk "ch0" none none false false)]
        none none none) =
      .error (PyErr.attributeError "STYLE_GUIDE") :=
  c9_setup_dispatch_error
    (Novel.mk [(0, Chapter.mk "ch0" none none false false)] none none none)
    (Or.inl rfl) (by simp)

/-- Claim C1 (code bug evidence): with `(X)-[:RELATES {predicate:
"KNOWS"}]->(Y)` persisted, merging X with a duplicate X′ via
`update_entities` recreates the collected relationship with the Neo4j
**type** `KNOWS` (the old `predicate` value) instead of `RELATES` —
`_create_relationship` interpolates `rel_type` into ``[r:`{rel_type}`]``.
Every reader query, including `_get_entity_relationships_tx`, matches only
`[r:RELATES]`, so the query for the merged node returns **zero**
relationships instead of the expected one.  (Before the merge the same
query raises `KeyError "relationship_type"` instead of returning the
edge: `create_triplet_from_dict` reads an alias the query does not
return.) -/
theorem c1_merge_loses_relates_edge :
    get_entity_relationships
      ((update_entities_tx
        (GraphStore.mk
          [N4Node.mk 0 (Entity.to_neo4j_props
            ⟨[⟨"X", "X", false⟩], EntityType.CHARACTER, "an entity", [0], []⟩),
           N4Node.mk 1 (Entity.to_neo4j_props
            ⟨[⟨"Y", "Y", false⟩], EntityType.CHARACTER, "another", [0], []⟩)]
          [N4Rel.mk 2 "RELATES" 0 1
            (RelProps.mk "KNOWS" [("chapter_idx", PropVal.int 0)])]
          3)
        [⟨[⟨"X", "X", false⟩, ⟨"X2", "X2", false⟩],
          EntityType.CHARACTER, "an entity", [0, 1], []⟩]).1) "X" =
      .ok [] ∧
    ((update_entities_tx
        (GraphStore.mk
          [N4Node.mk 0 (Entity.to_neo4j_props
            ⟨[⟨"X", "X", false⟩], EntityType.CHARACTER, "an entity", [0], []⟩),
           N4Node.mk 1 (Entity.to_neo4j_props
            ⟨[⟨"Y", "Y", false⟩], EntityType.CHARACTER, "another", [0], []⟩)]
          [N4Rel.mk 2 "RELATES" 0 1
            (RelProps.mk "KNOWS" [("chapter_idx", PropVal.int 0)])]
          3)
        [⟨[⟨"X", "X", false⟩, ⟨"X2", "X2", false⟩],
          EntityType.CHARACTER, "an entity", [0, 1], []⟩]).1).rels.map
      N4Rel.relType = ["KNOWS"] ∧
    (GraphStore.mk
      [N4Node.mk 0 (Entity.to_neo4j_props
        ⟨[⟨"X", "X", false⟩], EntityType.CHARACTER, "an entity", [0], []⟩),
       N4Node.mk 1 (Entity.to_neo4j_props
        ⟨[⟨"Y", "Y", false⟩], EntityType.CHARACTER, "another", [0], []⟩)]
      [N4Rel.mk 2 "RELATES" 0 1
        (RelProps.mk "KNOWS" [("chapter_idx", PropVal.int 0)])]
      3).rels.map N4Rel.relType = ["RELATES"] ∧
    get_entity_relationships
      (GraphStore.mk
        [N4Node.mk 0 (Entity.to_neo4j_props
          ⟨[⟨"X", "X", false⟩], EntityType.CHARACTER, "an entity", [0], []⟩),
         N4Node.mk 1 (Entity.to_neo4j_props
          ⟨[⟨"Y", "Y", false⟩], EntityType.CHARACTER, "another", [0], []⟩)]
        [N4Rel.mk 2 "RELATES" 0 1
          (RelProps.mk "KNOWS" [("chapter_idx", PropVal.int 0)])]
        3) "X" = .error (PyErr.keyError "relationship_type") :=
  ⟨rfl, rfl, rfl, rfl⟩

/-! ### Claim C2 machinery, part 1: the connected-component partition -/


theorem sameBlock_symm (p : Partition) (a b : String)
    (h : sameBlock p a b) : sameBlock p b a := by
  obtain ⟨bl, hbl, ha, hb⟩ := h
  exact ⟨bl, hbl, hb, ha⟩

theorem blocksDisjoint_unique (p : Partition) (hd : blocksDisjoint p)
    (b1 b2 : List String) (h1 : b1 ∈ p) (h2 : b2 ∈ p) (x : String)
    (hx1 : x ∈ b1) (hx2 : x ∈ b2) : b1 = b2 := by
  by_contra hne
  have hsym : Symmetric (fun b1 b2 : List String => ∀ x, x ∈ b1 → x ∉ b2) := by
    intro u v huv y hyv hyu
    exact huv y hyu hyv
  have := List.Pairwise.forall hsym hd h1 h2 hne
  exact this x hx1 hx2

theorem sameBlock_trans (p : Partition) (hd : blocksDisjoint p)
    (a b c : String) (hab : sameBlock p a b) (hbc : sameBlock p b c) :
    sameBlock p a c := by
  obtain ⟨bl1, hbl1, ha, hb1⟩ := hab
  obtain ⟨bl2, hbl2, hb2, hc⟩ := hbc
  have : bl1 = bl2 := blocksDisjoint_unique p hd bl1 bl2 hbl1 hbl2 b hb1 hb2
  subst this
  exact ⟨bl1, hbl1, ha, hc⟩

theorem blockOf_mem (p : Partition) (x : String) (bl : List String)
    (h : blockOf p x = some bl) : bl ∈ p ∧ x ∈ bl := by
  unfold blockOf at h
  refine ⟨List.mem_of_find?_eq_some h, ?_⟩
  have := List.find?_some h
  simpa using this

theorem blockOf_isSome (p : Partition) (x : String)
    (h : ∃ bl ∈ p, x ∈ bl) : ∃ bl, blockOf p x = some bl := by
  obtain ⟨bl, hbl, hx⟩ := h
  unfold blockOf
  have : (p.find? (fun bl => bl.contains x)).isSome := by
    rw [List.find?_isSome]
    exact ⟨bl, hbl, by simpa using hx⟩
  obtain ⟨v, hv⟩ := Option.isSome_iff_exists.mp this
  exact ⟨v, hv⟩

theorem ensureNode_mem_blocks (p : Partition) (x : String) (bl : List String)
    (h : bl ∈ ensureNode p x) : bl ∈ p ∨ bl = [x] := by
  unfold ensureNode at h
  split at h
  · exact Or.inl h
  · rcases List.mem_append.mp h with h | h
    · exact Or.inl h
    · right; simpa using h

theorem ensureNode_mono (p : Partition) (x a b : String)
    (h : sameBlock p a b) : sameBlock (ensureNode p x) a b := by
  obtain ⟨bl, hbl, ha, hb⟩ := h
  unfold ensureNode
  split
  · exact ⟨bl, hbl, ha, hb⟩
  · exact ⟨bl, List.mem_append_left _ hbl, ha, hb⟩

theorem ensureNode_self (p : Partition) (x : String) :
    sameBlock (ensureNode p x) x x := by
  unfold ensureNode
  split
  · next h =>
    obtain ⟨bl, hbl, hx⟩ := List.any_eq_true.mp h
    exact ⟨bl, hbl, by simpa using hx, by simpa using hx⟩
  · exact ⟨[x], List.mem_append_right _ (by simp), by simp, by simp⟩

theorem ensureNode_disjoint (p : Partition) (x : String)
    (hd : blocksDisjoint p) : blocksDisjoint (ensureNode p x) := by
  unfold ensureNode
  split
  · exact hd
  · next h =>
    rw [blocksDisjoint, List.pairwise_append]
    refine ⟨hd, by simp, ?_⟩
    intro b1 hb1 b2 hb2 y hy1 hy2
    have hb2' : b2 = [x] := by simpa using hb2
    subst hb2'
    have hyx : y = x := by simpa using hy2
    subst hyx
    have : ¬ (p.any (fun bl => bl.contains y) = true) := h
    apply this
    rw [List.any_eq_true]
    exact ⟨b1, hb1, by simpa using hy1⟩

theorem ensureNode_nonempty (p : Partition) (x : String)
    (hne : ∀ bl ∈ p, bl ≠ []) : ∀ bl ∈ ensureNode p x, bl ≠ [] := by
  intro bl hbl
  rcases ensureNode_mem_blocks p x bl hbl with h | h
  · exact hne bl h
  · subst h; simp

theorem ensureNode_members (p : Partition) (x : String)
    (bl : List String) (hbl : bl ∈ ensureNode p x) (y : String)
    (hy : y ∈ bl) : (∃ bl' ∈ p, y ∈ bl') ∨ y = x := by
  rcases ensureNode_mem_blocks p x bl hbl with h | h
  · exact Or.inl ⟨bl, h, hy⟩
  · subst h
    right
    simpa using hy

theorem mergeBlocks_mem_blocks (p : Partition) (a b : String)
    (bl : List String) (h : bl ∈ mergeBlocks p a b) :
    bl ∈ p ∨ ∃ ba bb, blockOf p a = some ba ∧ blockOf p b = some bb ∧
      bl = ba ++ bb := by
  unfold mergeBlocks at h
  split at h
  · next ba bb hba hbb =>
    split at h
    · exact Or.inl h
    · obtain ⟨bl', hbl', hf⟩ := List.mem_map.mp h
      by_cases hb : bl' = ba
      · subst hb
        rw [if_pos rfl] at hf
        exact Or.inr ⟨bl', bb, hba, hbb, hf.symm⟩
      · rw [if_neg hb] at hf
        subst hf
        exact Or.inl (List.mem_of_mem_filter hbl')
  · exact Or.inl h

theorem mergeBlocks_mono (p : Partition) (a b u v : String)
    (h : sameBlock p u v) : sameBlock (mergeBlocks p a b) u v := by
  obtain ⟨bl, hbl, hu, hv⟩ := h
  unfold mergeBlocks
  split
  · next ba bb hba hbb =>
    split
    · exact ⟨bl, hbl, hu, hv⟩
    · next hne =>
      by_cases hblbb : bl = bb
      · refine ⟨ba ++ bb, ?_, ?_, ?_⟩
        · refine List.mem_map.mpr ⟨ba, ?_, by rw [if_pos rfl]⟩
          refine List.mem_filter.mpr ⟨(blockOf_mem p a ba hba).1, ?_⟩
          simpa using hne
        · exact List.mem_append_right _ (hblbb ▸ hu)
        · exact List.mem_append_right _ (hblbb ▸ hv)
      · by_cases hblba : bl = ba
        · refine ⟨ba ++ bb, ?_, ?_, ?_⟩
          · refine List.mem_map.mpr ⟨ba, ?_, by rw [if_pos rfl]⟩
            refine List.mem_filter.mpr ⟨(blockOf_mem p a ba hba).1, ?_⟩
            simpa using hne
          · exact List.mem_append_left _ (hblba ▸ hu)
          · exact List.mem_append_left _ (hblba ▸ hv)
        · refine ⟨bl, ?_, hu, hv⟩
          refine List.mem_map.mpr ⟨bl, ?_, by rw [if_neg hblba]⟩
          exact List.mem_filter.mpr ⟨hbl, by simpa using hblbb⟩
  · exact ⟨bl, hbl, hu, hv⟩

theorem mergeBlocks_connects (p : Partition) (a b : String)
    (ba bb : List String) (hba : blockOf p a = some ba)
    (hbb : blockOf p b = some bb) :
    sameBlock (mergeBlocks p a b) a b := by
  unfold mergeBlocks
  rw [hba, hbb]
  show sameBlock (if ba = bb then p else (p.filter (fun bl => bl ≠ bb)).map
    (fun bl => if bl = ba then ba ++ bb else bl)) a b
  by_cases heq : ba = bb
  · rw [if_pos heq]
    exact ⟨bb, (blockOf_mem p b bb hbb).1,
      heq ▸ (blockOf_mem p a ba hba).2, (blockOf_mem p b bb hbb).2⟩
  · rw [if_neg heq]
    refine ⟨ba ++ bb, ?_, ?_, ?_⟩
    · refine List.mem_map.mpr ⟨ba, ?_, by rw [if_pos rfl]⟩
      refine List.mem_filter.mpr ⟨(blockOf_mem p a ba hba).1, ?_⟩
      simpa using heq
    · exact List.mem_append_left _ (blockOf_mem p a ba hba).2
    · exact List.mem_append_right _ (blockOf_mem p b bb hbb).2

theorem mergeBlocks_disjoint (p : Partition) (a b : String)
    (hd : blocksDisjoint p) : blocksDisjoint (mergeBlocks p a b) := by
  unfold mergeBlocks
  split
  · next ba bb hba hbb =>
    split
    · exact hd
    · next hne =>
      have hbamem := (blockOf_mem p a ba hba).1
      have hbbmem := (blockOf_mem p b bb hbb).1
      have hdis : ∀ b1 ∈ p, b1 ≠ bb → ∀ x, x ∈ bb → x ∉ b1 := by
        intro b1 hb1 hneq x hxbb hxb1
        exact blocksDisjoint_unique p hd bb b1 hbbmem hb1 x hxbb hxb1
          |> fun h => hneq h.symm
      have hfil : (p.filter (fun bl => bl ≠ bb)).Pairwise
          (fun b1 b2 => ∀ x, x ∈ b1 → x ∉ b2) :=
        hd.sublist (List.filter_sublist p)
      rw [blocksDisjoint, List.pairwise_map]
      refine hfil.imp_of_mem ?_
      intro b1 b2 hb1 hb2 hdisj x hx1 hx2
      have hb1p := List.mem_of_mem_filter hb1
      have hb2p := List.mem_of_mem_filter hb2
      have hb1bb : b1 ≠ bb := by
        have := (List.mem_filter.mp hb1).2
        simpa using this
      have hb2bb : b2 ≠ bb := by
        have := (List.mem_filter.mp hb2).2
        simpa using this
      by_cases h1 : b1 = ba <;> by_cases h2 : b2 = ba
      · exfalso
        have haba := (blockOf_mem p a ba hba).2
        have ha1 : a ∈ b1 := by rw [h1]; exact haba
        have ha2 : a ∈ b2 := by rw [h2]; exact haba
        exact hdisj a ha1 ha2
      · rw [if_pos h1] at hx1
        rw [if_neg h2] at hx2
        rcases List.mem_append.mp hx1 with hx | hx
        · have hx1' : x ∈ b1 := by rw [h1]; exact hx
          exact hdisj x hx1' hx2
        · exact hdis b2 hb2p hb2bb x hx hx2
      · rw [if_neg h1] at hx1
        rw [if_pos h2] at hx2
        rcases List.mem_append.mp hx2 with hx | hx
        · have hx2' : x ∈ b2 := by rw [h2]; exact hx
          exact hdisj x hx1 hx2'
        · exact hdis b1 hb1p hb1bb x hx hx1
      · rw [if_neg h1] at hx1
        rw [if_neg h2] at hx2
        exact hdisj x hx1 hx2
  · exact hd

theorem mergeBlocks_nonempty (p : Partition) (a b : String)
    (hne : ∀ bl ∈ p, bl ≠ []) : ∀ bl ∈ mergeBlocks p a b, bl ≠ [] := by
  intro bl hbl
  rcases mergeBlocks_mem_blocks p a b bl hbl with h | ⟨ba, bb, hba, hbb, hbl'⟩
  · exact hne bl h
  · subst hbl'
    intro hc
    have := hne ba (blockOf_mem p a ba hba).1
    exact this (List.append_eq_nil.mp hc).1

theorem mergeBlocks_members (p : Partition) (a b : String)
    (bl : List String) (hbl : bl ∈ mergeBlocks p a b) (y : String)
    (hy : y ∈ bl) : ∃ bl' ∈ p, y ∈ bl' := by
  rcases mergeBlocks_mem_blocks p a b bl hbl with h | ⟨ba, bb, hba, hbb, hbl'⟩
  · exact ⟨bl, h, hy⟩
  · subst hbl'
    rcases List.mem_append.mp hy with hy | hy
    · exact ⟨ba, (blockOf_mem p a ba hba).1, hy⟩
    · exact ⟨bb, (blockOf_mem p b bb hbb).1, hy⟩

theorem addEdgeP_mono (p : Partition) (e : String × String) (u v : String)
    (h : sameBlock p u v) : sameBlock (addEdgeP p e) u v :=
  mergeBlocks_mono _ _ _ _ _
    (ensureNode_mono _ _ _ _ (ensureNode_mono _ _ _ _ h))

theorem addEdgeP_connects (p : Partition) (e : String × String) :
    sameBlock (addEdgeP p e) e.1 e.2 := by
  unfold addEdgeP
  have h1 : ∃ bl ∈ ensureNode (ensureNode p e.1) e.2, e.1 ∈ bl := by
    obtain ⟨bl, hbl, hx, -⟩ :=
      ensureNode_mono (ensureNode p e.1) e.2 e.1 e.1 (ensureNode_self p e.1)
    exact ⟨bl, hbl, hx⟩
  have h2 : ∃ bl ∈ ensureNode (ensureNode p e.1) e.2, e.2 ∈ bl := by
    obtain ⟨bl, hbl, hx, -⟩ := ensureNode_self (ensureNode p e.1) e.2
    exact ⟨bl, hbl, hx⟩
  obtain ⟨ba, hba⟩ := blockOf_isSome _ _ h1
  obtain ⟨bb, hbb⟩ := blockOf_isSome _ _ h2
  exact mergeBlocks_connects _ _ _ _ _ hba hbb

theorem addEdgeP_disjoint (p : Partition) (e : String × String)
    (hd : blocksDisjoint p) : blocksDisjoint (addEdgeP p e) :=
  mergeBlocks_disjoint _ _ _
    (ensureNode_disjoint _ _ (ensureNode_disjoint _ _ hd))

theorem addEdgeP_nonempty (p : Partition) (e : String × String)
    (hne : ∀ bl ∈ p, bl ≠ []) : ∀ bl ∈ addEdgeP p e, bl ≠ [] :=
  mergeBlocks_nonempty _ _ _
    (ensureNode_nonempty _ _ (ensureNode_nonempty _ _ hne))

theorem addEdgeP_members (p : Partition) (e : String × String)
    (bl : List String) (hbl : bl ∈ addEdgeP p e) (y : String) (hy : y ∈ bl) :
    (∃ bl' ∈ p, y ∈ bl') ∨ y = e.1 ∨ y = e.2 := by
  obtain ⟨bl', hbl', hy'⟩ := mergeBlocks_members _ _ _ bl hbl y hy
  rcases ensureNode_members _ _ _ hbl' y hy' with h | h
  · rcases ensureNode_members _ _ _ h.choose_spec.1 y h.choose_spec.2 with
      h' | h'
    · exact Or.inl h'
    · exact Or.inr (Or.inl h')
  · exact Or.inr (Or.inr h)

theorem edgesFold_mono (edges : List (String × String)) :
    ∀ (p : Partition) (u v : String), sameBlock p u v →
    sameBlock (edges.foldl addEdgeP p) u v := by
  induction edges with
  | nil => intro p u v h; exact h
  | cons e rest ih =>
    intro p u v h
    exact ih (addEdgeP p e) u v (addEdgeP_mono p e u v h)

theorem edgesFold_disjoint (edges : List (String × String)) :
    ∀ p : Partition, blocksDisjoint p →
    blocksDisjoint (edges.foldl addEdgeP p) := by
  induction edges with
  | nil => intro p h; exact h
  | cons e rest ih =>
    intro p h
    exact ih (addEdgeP p e) (addEdgeP_disjoint p e h)

theorem edgesFold_nonempty (edges : List (String × String)) :
    ∀ p : Partition, (∀ bl ∈ p, bl ≠ []) →
    ∀ bl ∈ edges.foldl addEdgeP p, bl ≠ [] := by
  induction edges with
  | nil => intro p h; exact h
  | cons e rest ih =>
    intro p h
    exact ih (addEdgeP p e) (addEdgeP_nonempty p e h)

theorem edgesFold_connects (edges : List (String × String)) :
    ∀ (p : Partition) (e : String × String), e ∈ edges →
    sameBlock (edges.foldl addEdgeP p) e.1 e.2 := by
  induction edges with
  | nil => intro p e h; cases h
  | cons e0 rest ih =>
    intro p e h
    rcases List.mem_cons.mp h with h | h
    · subst h
      exact edgesFold_mono rest (addEdgeP p e) e.1 e.2 (addEdgeP_connects p e)
    · exact ih (addEdgeP p e0) e h

theorem edgesFold_members (edges : List (String × String)) :
    ∀ (p : Partition) (bl : List String), bl ∈ edges.foldl addEdgeP p →
    ∀ y ∈ bl, (∃ bl' ∈ p, y ∈ bl') ∨ ∃ e ∈ edges, y = e.1 ∨ y = e.2 := by
  induction edges with
  | nil =>
    intro p bl hbl y hy
    exact Or.inl ⟨bl, hbl, hy⟩
  | cons e0 rest ih =>
    intro p bl hbl y hy
    rcases ih (addEdgeP p e0) bl hbl y hy with h | ⟨e, he, hor⟩
    · obtain ⟨bl', hbl', hy'⟩ := h
      rcases addEdgeP_members p e0 bl' hbl' y hy' with h' | h'
      · exact Or.inl h'
      · exact Or.inr ⟨e0, List.mem_cons_self _ _, h'⟩
    · exact Or.inr ⟨e, List.mem_cons_of_mem _ he, hor⟩

theorem initPartition_aux_mem (nodes : List String) :
    ∀ (p : Partition) (x : String),
    ((∃ bl ∈ p, x ∈ bl) ∨ x ∈ nodes) →
    ∃ bl ∈ nodes.foldl ensureNode p, x ∈ bl := by
  induction nodes with
  | nil =>
    intro p x h
    rcases h with h | h
    · exact h
    · cases h
  | cons n rest ih =>
    intro p x h
    refine ih (ensureNode p n) x ?_
    rcases h with ⟨bl, hbl, hx⟩ | h
    · left
      obtain ⟨bl', hbl', hx', -⟩ := ensureNode_mono p n x x ⟨bl, hbl, hx, hx⟩
      exact ⟨bl', hbl', hx'⟩
    · rcases List.mem_cons.mp h with h | h
      · subst h
        left
        obtain ⟨bl, hbl, hx, -⟩ := ensureNode_self p x
        exact ⟨bl, hbl, hx⟩
      · exact Or.inr h

theorem initPartition_mem (nodes : List String) (x : String)
    (h : x ∈ nodes) : ∃ bl ∈ initPartition nodes, x ∈ bl :=
  initPartition_aux_mem nodes [] x (Or.inr h)

theorem initPartition_aux_disjoint (nodes : List String) :
    ∀ p : Partition, blocksDisjoint p →
    blocksDisjoint (nodes.foldl ensureNode p) := by
  induction nodes with
  | nil => intro p h; exact h
  | cons n rest ih =>
    intro p h
    exact ih (ensureNode p n) (ensureNode_disjoint p n h)

theorem initPartition_disjoint (nodes : List String) :
    blocksDisjoint (initPartition nodes) :=
  initPartition_aux_disjoint nodes [] (by simp [blocksDisjoint])

theorem initPartition_aux_nonempty (nodes : List String) :
    ∀ p : Partition, (∀ bl ∈ p, bl ≠ []) →
    ∀ bl ∈ nodes.foldl ensureNode p, bl ≠ [] := by
  induction nodes with
  | nil => intro p h; exact h
  | cons n rest ih =>
    intro p h
    exact ih (ensureNode p n) (ensureNode_nonempty p n h)

theorem initPartition_nonempty (nodes : List String) :
    ∀ bl ∈ initPartition nodes, bl ≠ [] :=
  initPartition_aux_nonempty nodes [] (by simp)

theorem initPartition_aux_members (nodes : List String) :
    ∀ (p : Partition) (bl : List String), bl ∈ nodes.foldl ensureNode p →
    ∀ y ∈ bl, (∃ bl' ∈ p, y ∈ bl') ∨ y ∈ nodes := by
  induction nodes with
  | nil =>
    intro p bl hbl y hy
    exact Or.inl ⟨bl, hbl, hy⟩
  | cons n rest ih =>
    intro p bl hbl y hy
    rcases ih (ensureNode p n) bl hbl y hy with ⟨bl', hbl', hy'⟩ | h
    · rcases ensureNode_members p n bl' hbl' y hy' with h' | h'
      · exact Or.inl h'
      · exact Or.inr (h' ▸ List.mem_cons_self _ _)
    · exact Or.inr (List.mem_cons_of_mem _ h)

theorem initPartition_members (nodes : List String) (bl : List String)
    (hbl : bl ∈ initPartition nodes) (y : String) (hy : y ∈ bl) :
    y ∈ nodes := by
  rcases initPartition_aux_members nodes [] bl hbl y hy with ⟨bl', hbl', -⟩ | h
  · cases hbl'
  · exact h

theorem connected_components_disjoint (nodes : List String)
    (edges : List (String × String)) :
    blocksDisjoint (connected_components nodes edges) :=
  edgesFold_disjoint edges _ (initPartition_disjoint nodes)

theorem connected_components_nonempty (nodes : List String)
    (edges : List (String × String)) :
    ∀ bl ∈ connected_components nodes edges, bl ≠ [] :=
  edgesFold_nonempty edges _ (initPartition_nonempty nodes)

theorem connected_components_connects (nodes : List String)
    (edges : List (String × String)) (e : String × String) (he : e ∈ edges) :
    sameBlock (connected_components nodes edges) e.1 e.2 :=
  edgesFold_connects edges _ e he

theorem connected_components_node_refl (nodes : List String)
    (edges : List (String × String)) (x : String) (hx : x ∈ nodes) :
    sameBlock (connected_components nodes edges) x x := by
  obtain ⟨bl, hbl, hxbl⟩ := initPartition_mem nodes x hx
  exact edgesFold_mono edges _ x x ⟨bl, hbl, hxbl, hxbl⟩

theorem connected_components_members (nodes : List String)
    (edges : List (String × String)) (bl : List String)
    (hbl : bl ∈ connected_components nodes edges) (y : String) (hy : y ∈ bl) :
    y ∈ nodes ∨ ∃ e ∈ edges, y = e.1 ∨ y = e.2 := by
  rcases edgesFold_members edges _ bl hbl y hy with ⟨bl', hbl', hy'⟩ | h
  · exact Or.inl (initPartition_members nodes bl' hbl' y hy')
  · exact Or.inr h

/-! ### Claim C2 machinery, part 2: the name dict, nodes and edges -/

theorem names_fold_mem (names : List String) (i : Nat) :
    ∀ (m : List (String × Nat)) (pr : String × Nat),
    pr ∈ names.foldl (fun m nm => (nm, i) :: m) m →
    pr ∈ m ∨ (pr.2 = i ∧ pr.1 ∈ names) := by
  induction names with
  | nil => intro m pr h; exact Or.inl h
  | cons nm rest ih =>
    intro m pr h
    rcases ih ((nm, i) :: m) pr h with h' | h'
    · rcases List.mem_cons.mp h' with h'' | h''
      · right
        rw [h'']
        exact ⟨rfl, List.mem_cons_self _ _⟩
      · exact Or.inl h''
    · exact Or.inr ⟨h'.1, List.mem_cons_of_mem _ h'.2⟩

theorem idxs_fold_mem (heap : EntityHeap) (idxs : List Nat) :
    ∀ (m : List (String × Nat)) (pr : String × Nat),
    pr ∈ idxs.foldl
      (fun m i => (entityAt heap i).strong_names.foldl
        (fun m nm => (nm, i) :: m) m) m →
    pr ∈ m ∨ ∃ i ∈ idxs, pr.2 = i ∧ pr.1 ∈ (entityAt heap i).strong_names := by
  induction idxs with
  | nil => intro m pr h; exact Or.inl h
  | cons i rest ih =>
    intro m pr h
    rcases ih _ pr h with h' | ⟨j, hj, hpr⟩
    · rcases names_fold_mem _ i m pr h' with h'' | h''
      · exact Or.inl h''
      · exact Or.inr ⟨i, List.mem_cons_self _ _, h''⟩
    · exact Or.inr ⟨j, List.mem_cons_of_mem _ hj, hpr⟩

theorem groups_fold_mem (heap : EntityHeap) (groups : List (List Nat)) :
    ∀ (m : List (String × Nat)) (pr : String × Nat),
    pr ∈ groups.foldl
      (fun m idxs => idxs.foldl
        (fun m i => (entityAt heap i).strong_names.foldl
          (fun m nm => (nm, i) :: m) m) m) m →
    pr ∈ m ∨ ∃ idxs ∈ groups, ∃ i ∈ idxs, pr.2 = i ∧
      pr.1 ∈ (entityAt heap i).strong_names := by
  induction groups with
  | nil => intro m pr h; exact Or.inl h
  | cons idxs rest ih =>
    intro m pr h
    rcases ih _ pr h with h' | ⟨idxs', hidxs', hex⟩
    · rcases idxs_fold_mem heap idxs m pr h' with h'' | h''
      · exact Or.inl h''
      · exact Or.inr ⟨idxs, List.mem_cons_self _ _, h''⟩
    · exact Or.inr ⟨idxs', List.mem_cons_of_mem _ hidxs', hex⟩

theorem map_names_mem (heap : EntityHeap) (groups : List (List Nat))
    (pr : String × Nat) (h : pr ∈ map_names heap groups) :
    ∃ idxs ∈ groups, ∃ i ∈ idxs, pr.2 = i ∧
      pr.1 ∈ (entityAt heap i).strong_names := by
  unfold map_names at h
  rcases groups_fold_mem heap groups [] pr h with h' | h'
  · cases h'
  · exact h'

theorem mapNamesLookup_mem (m : List (String × Nat)) (nm : String) (i : Nat)
    (h : mapNamesLookup m nm = some i) : (nm, i) ∈ m := by
  unfold mapNamesLookup at h
  cases hf : m.find? (fun p => p.1 == nm) with
  | none => rw [hf] at h; cases h
  | some pr =>
    rw [hf] at h
    simp only [Option.map_some'] at h
    have hmem := List.mem_of_find?_eq_some hf
    have hkey : pr.1 = nm := by
      have := List.find?_some hf
      simpa using this
    have : pr = (nm, i) := by
      obtain ⟨k, v⟩ := pr
      simp only at hkey h
      injection h with h2
      rw [hkey, h2]
    exact this ▸ hmem

theorem mapNamesLookup_origin (heap : EntityHeap) (groups : List (List Nat))
    (nm : String) (i : Nat)
    (h : mapNamesLookup (map_names heap groups) nm = some i) :
    ∃ idxs ∈ groups, i ∈ idxs ∧ nm ∈ (entityAt heap i).strong_names := by
  obtain ⟨idxs, hidxs, j, hj, hji, hnm⟩ :=
    map_names_mem heap groups (nm, i) (mapNamesLookup_mem _ _ _ h)
  simp only at hji hnm
  subst hji
  exact ⟨idxs, hidxs, hj, hnm⟩

theorem names_fold_grow (names : List String) (i : Nat) :
    ∀ (m : List (String × Nat)) (pr : String × Nat), pr ∈ m →
    pr ∈ names.foldl (fun m nm => (nm, i) :: m) m := by
  induction names with
  | nil => intro m pr h; exact h
  | cons nm rest ih =>
    intro m pr h
    exact ih _ pr (List.mem_cons_of_mem _ h)

theorem names_fold_insert (names : List String) (i : Nat)
    (m : List (String × Nat)) (nm : String) (h : nm ∈ names) :
    (nm, i) ∈ names.foldl (fun m nm => (nm, i) :: m) m := by
  induction names generalizing m with
  | nil => cases h
  | cons nm0 rest ih =>
    rcases List.mem_cons.mp h with h' | h'
    · subst h'
      exact names_fold_grow rest i _ _ (List.mem_cons_self _ _)
    · exact ih _ h'

theorem idxs_fold_grow (heap : EntityHeap) (idxs : List Nat) :
    ∀ (m : List (String × Nat)) (pr : String × Nat), pr ∈ m →
    pr ∈ idxs.foldl
      (fun m i => (entityAt heap i).strong_names.foldl
        (fun m nm => (nm, i) :: m) m) m := by
  induction idxs with
  | nil => intro m pr h; exact h
  | cons i rest ih =>
    intro m pr h
    exact ih _ pr (names_fold_grow _ i m pr h)

theorem idxs_fold_insert (heap : EntityHeap) (idxs : List Nat)
    (m : List (String × Nat)) (i : Nat) (nm : String) (hi : i ∈ idxs)
    (hnm : nm ∈ (entityAt heap i).strong_names) :
    (nm, i) ∈ idxs.foldl
      (fun m i => (entityAt heap i).strong_names.foldl
        (fun m nm => (nm, i) :: m) m) m := by
  induction idxs generalizing m with
  | nil => cases hi
  | cons i0 rest ih =>
    rcases List.mem_cons.mp hi with h' | h'
    · subst h'
      exact idxs_fold_grow heap rest _ _ (names_fold_insert _ i m nm hnm)
    · exact ih _ h'

theorem groups_fold_grow (heap : EntityHeap) (groups : List (List Nat)) :
    ∀ (m : List (String × Nat)) (pr : String × Nat), pr ∈ m →
    pr ∈ groups.foldl
      (fun m idxs => idxs.foldl
        (fun m i => (entityAt heap i).strong_names.foldl
          (fun m nm => (nm, i) :: m) m) m) m := by
  induction groups with
  | nil => intro m pr h; exact h
  | cons idxs rest ih =>
    intro m pr h
    exact ih _ pr (idxs_fold_grow heap idxs m pr h)

theorem map_names_insert_aux (heap : EntityHeap) (groups : List (List Nat))
    (idxs : List Nat) (i : Nat) (nm : String) (hg : idxs ∈ groups)
    (hi : i ∈ idxs) (hnm : nm ∈ (entityAt heap i).strong_names) :
    ∀ m : List (String × Nat),
    (nm, i) ∈ groups.foldl
      (fun m idxs => idxs.foldl
        (fun m i => (entityAt heap i).strong_names.foldl
          (fun m nm => (nm, i) :: m) m) m) m := by
  induction groups with
  | nil => cases hg
  | cons idxs0 rest ih =>
    intro m
    rcases List.mem_cons.mp hg with h' | h'
    · subst h'
      exact groups_fold_grow heap rest _ _
        (idxs_fold_insert heap idxs m i nm hi hnm)
    · exact ih h' _

theorem map_names_insert (heap : EntityHeap) (groups : List (List Nat))
    (idxs : List Nat) (i : Nat) (nm : String) (hg : idxs ∈ groups)
    (hi : i ∈ idxs) (hnm : nm ∈ (entityAt heap i).strong_names) :
    (nm, i) ∈ map_names heap groups :=
  map_names_insert_aux heap groups idxs i nm hg hi hnm []

theorem mapNamesLookup_isSome (heap : EntityHeap) (groups : List (List Nat))
    (idxs : List Nat) (i : Nat) (nm : String) (hg : idxs ∈ groups)
    (hi : i ∈ idxs) (hnm : nm ∈ (entityAt heap i).strong_names) :
    ∃ j, mapNamesLookup (map_names heap groups) nm = some j := by
  unfold mapNamesLookup
  have hmem := map_names_insert heap groups idxs i nm hg hi hnm
  have : ((map_names heap groups).find? (fun p => p.1 == nm)).isSome := by
    rw [List.find?_isSome]
    exact ⟨(nm, i), hmem, by simp⟩
  obtain ⟨pr, hpr⟩ := Option.isSome_iff_exists.mp this
  exact ⟨pr.2, by rw [hpr]; rfl⟩

theorem flat_fold_mem (groups : List (List Nat)) :
    ∀ (acc : List Nat) (i : Nat),
    (i ∈ groups.foldl (fun acc idxs => acc ++ idxs) acc ↔
      i ∈ acc ∨ ∃ idxs ∈ groups, i ∈ idxs) := by
  induction groups with
  | nil => intro acc i; simp
  | cons g rest ih =>
    intro acc i
    rw [List.foldl_cons, ih]
    simp only [List.mem_append, List.exists_mem_cons_iff]
    tauto

theorem nodes_inner_mem (heap : EntityHeap) (idxs : List Nat) :
    ∀ (acc : List String) (nm : String),
    (nm ∈ idxs.foldl
        (fun acc i => acc ++ (entityAt heap i).strong_names) acc ↔
      nm ∈ acc ∨ ∃ i ∈ idxs, nm ∈ (entityAt heap i).strong_names) := by
  induction idxs with
  | nil => intro acc nm; simp
  | cons i rest ih =>
    intro acc nm
    rw [List.foldl_cons, ih]
    simp only [List.mem_append, List.exists_mem_cons_iff]
    tauto

theorem add_nodes_mem (heap : EntityHeap) (groups : List (List Nat)) :
    ∀ (acc : List String) (nm : String),
    (nm ∈ groups.foldl
        (fun acc idxs =>
          idxs.foldl (fun acc i => acc ++ (entityAt heap i).strong_names) acc)
        acc ↔
      nm ∈ acc ∨ ∃ idxs ∈ groups, ∃ i ∈ idxs,
        nm ∈ (entityAt heap i).strong_names) := by
  induction groups with
  | nil => intro acc nm; simp
  | cons g rest ih =>
    intro acc nm
    rw [List.foldl_cons, ih, nodes_inner_mem]
    simp only [List.exists_mem_cons_iff]
    exact or_assoc

theorem add_nodes_mem_iff (heap : EntityHeap) (groups : List (List Nat))
    (nm : String) :
    nm ∈ add_nodes heap groups ↔
      ∃ idxs ∈ groups, ∃ i ∈ idxs, nm ∈ (entityAt heap i).strong_names := by
  unfold add_nodes
  rw [add_nodes_mem]
  simp

theorem entity_edges_cons (e : Entity) (a : String) (r : List String)
    (h : e.strong_names = a :: r) :
    entity_edges e = .ok (r.map (fun s => (a, s))) := by
  unfold entity_edges
  rw [h]

theorem entity_edges_ok_shape (e : Entity) (es : List (String × String))
    (h : entity_edges e = .ok es) :
    ∃ a r, e.strong_names = a :: r ∧ es = r.map (fun s => (a, s)) := by
  unfold entity_edges at h
  cases hsn : e.strong_names with
  | nil => rw [hsn] at h; cases h
  | cons a r =>
    rw [hsn] at h
    refine ⟨a, r, rfl, ?_⟩
    cases h
    rfl

theorem edges_fold_ok (heap : EntityHeap) (flat : List Nat) :
    ∀ acc : List (String × String),
    (∀ i ∈ flat, (entityAt heap i).strong_names ≠ []) →
    ∃ E, flat.foldlM
      (fun acc i => do
        let es ← entity_edges (entityAt heap i)
        pure (acc ++ es))
      acc = .ok E := by
  induction flat with
  | nil => intro acc _; exact ⟨acc, rfl⟩
  | cons j rest ih =>
    intro acc h
    cases hsn : (entityAt heap j).strong_names with
    | nil => exact absurd hsn (h j (List.mem_cons_self _ _))
    | cons a r =>
      obtain ⟨E, hE⟩ := ih (acc ++ r.map (fun s => (a, s)))
        (fun i hi => h i (List.mem_cons_of_mem _ hi))
      refine ⟨E, ?_⟩
      rw [List.foldlM_cons, entity_edges_cons _ a r hsn]
      exact hE

theorem edges_fold_grow2 (heap : EntityHeap) (flat : List Nat) :
    ∀ (acc E : List (String × String)),
    flat.foldlM
      (fun acc i => do
        let es ← entity_edges (entityAt heap i)
        pure (acc ++ es))
      acc = .ok E →
    ∀ x ∈ acc, x ∈ E := by
  induction flat with
  | nil =>
    intro acc E hE x hx
    cases hE
    exact hx
  | cons j rest ih =>
    intro acc E hE x hx
    rw [List.foldlM_cons] at hE
    cases hes : entity_edges (entityAt heap j) with
    | error err => rw [hes] at hE; cases hE
    | ok es =>
      rw [hes] at hE
      exact ih (acc ++ es) E hE x (List.mem_append_left _ hx)

theorem edges_fold_entity (heap : EntityHeap) (flat : List Nat) :
    ∀ (acc E : List (String × String)),
    flat.foldlM
      (fun acc i => do
        let es ← entity_edges (entityAt heap i)
        pure (acc ++ es))
      acc = .ok E →
    ∀ i ∈ flat, ∃ a r, (entityAt heap i).strong_names = a :: r ∧
      ∀ s ∈ r, (a, s) ∈ E := by
  induction flat with
  | nil => intro acc E _ i hi; cases hi
  | cons j rest ih =>
    intro acc E hE i hi
    rw [List.foldlM_cons] at hE
    cases hes : entity_edges (entityAt heap j) with
    | error err => rw [hes] at hE; cases hE
    | ok es =>
      rw [hes] at hE
      rcases List.mem_cons.mp hi with hi | hi
      · subst hi
        obtain ⟨a, r, hsn, hshape⟩ := entity_edges_ok_shape _ es hes
        refine ⟨a, r, hsn, fun s hs => ?_⟩
        have : (a, s) ∈ acc ++ es := by
          rw [hshape]
          exact List.mem_append_right _ (List.mem_map_of_mem _ hs)
        exact edges_fold_grow2 heap rest (acc ++ es) E hE _ this
      · exact ih (acc ++ es) E hE i hi

theorem edges_fold_src (heap : EntityHeap) (flat : List Nat) :
    ∀ (acc E : List (String × String)),
    flat.foldlM
      (fun acc i => do
        let es ← entity_edges (entityAt heap i)
        pure (acc ++ es))
      acc = .ok E →
    ∀ x ∈ E, x ∈ acc ∨ ∃ i ∈ flat,
      x.1 ∈ (entityAt heap i).strong_names ∧
      x.2 ∈ (entityAt heap i).strong_names := by
  induction flat with
  | nil =>
    intro acc E hE x hx
    cases hE
    exact Or.inl hx
  | cons j rest ih =>
    intro acc E hE x hx
    rw [List.foldlM_cons] at hE
    cases hes : entity_edges (entityAt heap j) with
    | error err => rw [hes] at hE; cases hE
    | ok es =>
      rw [hes] at hE
      rcases ih (acc ++ es) E hE x hx with h | ⟨i, hi, h1, h2⟩
      · rcases List.mem_append.mp h with h | h
        · exact Or.inl h
        · obtain ⟨a, r, hsn, hshape⟩ := entity_edges_ok_shape _ es hes
          rw [hshape] at h
          obtain ⟨s, hs, hxs⟩ := List.mem_map.mp h
          refine Or.inr ⟨j, List.mem_cons_self _ _, ?_, ?_⟩
          · rw [← hxs, hsn]; exact List.mem_cons_self _ _
          · rw [← hxs, hsn]; exact List.mem_cons_of_mem _ hs
      · exact Or.inr ⟨i, List.mem_cons_of_mem _ hi, h1, h2⟩

theorem add_edges_ok_of_strong (heap : EntityHeap) (groups : List (List Nat))
    (h : ∀ idxs ∈ groups, ∀ i ∈ idxs, (entityAt heap i).strong_names ≠ []) :
    ∃ E, add_edges heap groups = .ok E := by
  unfold add_edges
  refine edges_fold_ok heap _ [] (fun i hi => ?_)
  obtain ⟨idxs, hidxs, hiidxs⟩ :=
    ((flat_fold_mem groups [] i).mp hi).resolve_left (by simp)
  exact h idxs hidxs i hiidxs

theorem add_edges_entity (heap : EntityHeap) (groups : List (List Nat))
    (E : List (String × String)) (hE : add_edges heap groups = .ok E)
    (idxs : List Nat) (hg : idxs ∈ groups) (i : Nat) (hi : i ∈ idxs) :
    ∃ a r, (entityAt heap i).strong_names = a :: r ∧
      ∀ s ∈ r, (a, s) ∈ E := by
  unfold add_edges at hE
  refine edges_fold_entity heap _ [] E hE i ?_
  exact (flat_fold_mem groups [] i).mpr (Or.inr ⟨idxs, hg, hi⟩)

theorem add_edges_src (heap : EntityHeap) (groups : List (List Nat))
    (E : List (String × String)) (hE : add_edges heap groups = .ok E)
    (x : String × String) (hx : x ∈ E) :
    ∃ idxs ∈ groups, ∃ i ∈ idxs,
      x.1 ∈ (entityAt heap i).strong_names ∧
      x.2 ∈ (entityAt heap i).strong_names := by
  unfold add_edges at hE
  rcases edges_fold_src heap _ [] E hE x hx with h | ⟨i, hi, h1, h2⟩
  · cases h
  · obtain ⟨idxs, hidxs, hiidxs⟩ :=
      ((flat_fold_mem groups [] i).mp hi).resolve_left (by simp)
    exact ⟨idxs, hidxs, i, hiidxs, h1, h2⟩

theorem entity_clique (heap : EntityHeap) (groups : List (List Nat))
    (E : List (String × String)) (hE : add_edges heap groups = .ok E)
    (idxs : List Nat) (hg : idxs ∈ groups) (i : Nat) (hi : i ∈ idxs)
    (n1 n2 : String) (h1 : n1 ∈ (entityAt heap i).strong_names)
    (h2 : n2 ∈ (entityAt heap i).strong_names) :
    sameBlock (connected_components (add_nodes heap groups) E) n1 n2 := by
  obtain ⟨a, r, hsn, hedges⟩ := add_edges_entity heap groups E hE idxs hg i hi
  have hanode : a ∈ add_nodes heap groups :=
    (add_nodes_mem_iff heap groups a).mpr
      ⟨idxs, hg, i, hi, by rw [hsn]; exact List.mem_cons_self _ _⟩
  have key : ∀ nm ∈ (entityAt heap i).strong_names,
      sameBlock (connected_components (add_nodes heap groups) E) a nm := by
    intro nm hnm
    rw [hsn] at hnm
    rcases List.mem_cons.mp hnm with hnm | hnm
    · subst hnm
      exact connected_components_node_refl _ E nm hanode
    · exact connected_components_connects _ E (a, nm) (hedges nm hnm)
  exact sameBlock_trans _ (connected_components_disjoint _ _) n1 a n2
    (sameBlock_symm _ _ _ (key n1 h1)) (key n2 h2)

theorem dedup_fold_mem (l : List Nat) :
    ∀ (acc : List Nat) (i : Nat),
    (i ∈ l.foldl (fun acc i => if acc.contains i then acc else acc ++ [i]) acc ↔
      i ∈ acc ∨ i ∈ l) := by
  induction l with
  | nil => intro acc i; simp
  | cons j rest ih =>
    intro acc i
    rw [List.foldl_cons]
    by_cases hc : acc.contains j
    · rw [if_pos hc, ih]
      have hj : j ∈ acc := by simpa using hc
      simp only [List.mem_cons]
      constructor
      · rintro (h | h)
        · exact Or.inl h
        · exact Or.inr (Or.inr h)
      · rintro (h | h | h)
        · exact Or.inl h
        · exact Or.inl (h ▸ hj)
        · exact Or.inr h
    · rw [if_neg hc, ih]
      simp only [List.mem_append, List.mem_cons, List.mem_singleton]
      tauto

theorem mem_dedupKeepFirst (l : List Nat) (i : Nat) :
    i ∈ dedupKeepFirst l ↔ i ∈ l := by
  unfold dedupKeepFirst
  rw [dedup_fold_mem]
  simp

theorem dedup_fold_nodup (l : List Nat) :
    ∀ acc : List Nat, acc.Nodup →
    (l.foldl (fun acc i => if acc.contains i then acc else acc ++ [i])
      acc).Nodup := by
  induction l with
  | nil => intro acc h; exact h
  | cons j rest ih =>
    intro acc hacc
    rw [List.foldl_cons]
    by_cases hc : acc.contains j
    · rw [if_pos hc]; exact ih acc hacc
    · rw [if_neg hc]
      refine ih _ ?_
      have hj : j ∉ acc := by simpa using hc
      rw [List.nodup_append]
      refine ⟨hacc, List.nodup_singleton j, ?_⟩
      intro a ha hmem
      rw [List.mem_singleton] at hmem
      subst hmem
      exact hj ha

theorem nodup_dedupKeepFirst (l : List Nat) : (dedupKeepFirst l).Nodup :=
  dedup_fold_nodup l [] List.nodup_nil

theorem forall2_mem_left {α β : Type} {R : α → β → Prop}
    {l1 : List α} {l2 : List β} (h : List.Forall₂ R l1 l2)
    {a : α} (ha : a ∈ l1) : ∃ b ∈ l2, R a b := by
  induction h with
  | nil => cases ha
  | cons hr _ ih =>
    rcases List.mem_cons.mp ha with ha | ha
    · exact ⟨_, List.mem_cons_self _ _, ha ▸ hr⟩
    · obtain ⟨b, hb, hrb⟩ := ih ha
      exact ⟨b, List.mem_cons_of_mem _ hb, hrb⟩

theorem forall2_mem_right {α β : Type} {R : α → β → Prop}
    {l1 : List α} {l2 : List β} (h : List.Forall₂ R l1 l2)
    {b : β} (hb : b ∈ l2) : ∃ a ∈ l1, R a b := by
  induction h with
  | nil => cases hb
  | cons hr _ ih =>
    rcases List.mem_cons.mp hb with hb | hb
    · exact ⟨_, List.mem_cons_self _ _, hb ▸ hr⟩
    · obtain ⟨a, ha, hra⟩ := ih hb
      exact ⟨a, List.mem_cons_of_mem _ ha, hra⟩

theorem forall2_pairwise {α β : Type} {R : α → β → Prop}
    {S : α → α → Prop} {T : β → β → Prop}
    {l1 : List α} {l2 : List β} (h : List.Forall₂ R l1 l2)
    (hp : l1.Pairwise S)
    (himp : ∀ a b a' b', R a b → R a' b' → S a a' → T b b') :
    l2.Pairwise T := by
  induction h with
  | nil => exact List.Pairwise.nil
  | cons hr htail ih =>
    rw [List.pairwise_cons] at hp
    refine List.Pairwise.cons ?_ (ih hp.2)
    intro b' hb'
    obtain ⟨a', ha', hra'⟩ := forall2_mem_right htail hb'
    exact himp _ _ _ _ hr hra' (hp.1 a' ha')

theorem exc_mapM_ok {α β : Type} (f : α → Except PyErr β) (l : List α)
    (h : ∀ a ∈ l, ∃ b, f a = .ok b) :
    ∃ bs, l.mapM f = .ok bs ∧
      List.Forall₂ (fun a b => f a = .ok b) l bs := by
  rw [← List.mapM'_eq_mapM]
  induction l with
  | nil => exact ⟨[], rfl, List.Forall₂.nil⟩
  | cons a l ih =>
    obtain ⟨b, hb⟩ := h a (List.mem_cons_self _ _)
    obtain ⟨bs, hbs, hf⟩ := ih (fun x hx => h x (List.mem_cons_of_mem _ hx))
    refine ⟨b :: bs, ?_, List.Forall₂.cons hb hf⟩
    show (f a >>= fun b => l.mapM' f >>= fun bs => pure (b :: bs)) =
      .ok (b :: bs)
    rw [hb, hbs]
    rfl

theorem exc_mapM_forall2 {α β : Type} (f : α → Except PyErr β) (l : List α)
    (bs : List β) (h : l.mapM f = .ok bs) :
    List.Forall₂ (fun a b => f a = .ok b) l bs := by
  rw [← List.mapM'_eq_mapM] at h
  induction l generalizing bs with
  | nil =>
    cases h
    exact List.Forall₂.nil
  | cons a l ih =>
    have h' : (f a >>= fun b => l.mapM' f >>= fun bs => pure (b :: bs)) =
        .ok bs := h
    cases ha : f a with
    | error err => rw [ha] at h'; cases h'
    | ok b =>
      rw [ha] at h'
      cases hl : l.mapM' f with
      | error err => rw [hl] at h'; cases h'
      | ok bs' =>
        rw [hl] at h'
        have h'' : (Except.ok (b :: bs') : Except PyErr (List β)) = .ok bs := h'
        cases h''
        exact List.Forall₂.cons ha (ih bs' hl)

theorem lookup_body_ok (mapping : List (String × Nat)) (nm : String) (i : Nat) :
    ((match mapNamesLookup mapping nm with
      | some i => Except.ok i
      | none => Except.error (PyErr.keyError nm)) = .ok i) ↔
      mapNamesLookup mapping nm = some i := by
  cases h : mapNamesLookup mapping nm with
  | none => simp
  | some j => simp

theorem find_related_ok (mapping : List (String × Nat)) (p : Partition)
    (h : ∀ bl ∈ p, ∀ nm ∈ bl, ∃ i, mapNamesLookup mapping nm = some i) :
    ∃ related, find_related_entities mapping p = .ok related ∧
      List.Forall₂ (fun (bl : List String) (L : List Nat) => ∃ idxs,
        List.Forall₂ (fun nm i => mapNamesLookup mapping nm = some i) bl idxs ∧
        L = dedupKeepFirst idxs) p related := by
  have hbl : ∀ bl ∈ p, ∃ L,
      (do
        let idxs ← bl.mapM (fun nm =>
          match mapNamesLookup mapping nm with
          | some i => Except.ok i
          | none => Except.error (PyErr.keyError nm))
        pure (dedupKeepFirst idxs) : Except PyErr (List Nat)) = .ok L := by
    intro bl hblp
    obtain ⟨idxs, hidxs, -⟩ := exc_mapM_ok
      (fun nm => match mapNamesLookup mapping nm with
        | some i => Except.ok i
        | none => Except.error (PyErr.keyError nm)) bl
      (fun nm hnm => by
        obtain ⟨i, hi⟩ := h bl hblp nm hnm
        exact ⟨i, (lookup_body_ok mapping nm i).mpr hi⟩)
    refine ⟨dedupKeepFirst idxs, ?_⟩
    rw [hidxs]
    rfl
  obtain ⟨related, hrel, hf⟩ := exc_mapM_ok _ p hbl
  refine ⟨related, hrel, List.Forall₂.imp ?_ hf⟩
  intro bl L hok
  cases hm : bl.mapM (fun nm =>
      match mapNamesLookup mapping nm with
      | some i => Except.ok i
      | none => Except.error (PyErr.keyError nm)) with
  | error err => rw [hm] at hok; cases hok
  | ok idxs =>
    rw [hm] at hok
    have hok' : (Except.ok (dedupKeepFirst idxs) :
        Except PyErr (List Nat)) = .ok L := hok
    cases hok'
    refine ⟨idxs, ?_, rfl⟩
    have := exc_mapM_forall2 _ bl idxs hm
    exact List.Forall₂.imp
      (fun {nm i} hnmi => (lookup_body_ok mapping nm i).mp hnmi) this

theorem merge_entity_ok (e o : Entity) (he : e.names ≠ []) (ho : o.names ≠ []) :
    ∃ m, e.merge_entity o = .ok m := by
  cases ho' : o.names with
  | nil => exact absurd ho' ho
  | cons x xs =>
    cases he' : e.names with
    | nil => exact absurd he' he
    | cons y ys =>
      unfold Entity.merge_entity
      rw [ho', he']
      exact ⟨_, rfl⟩

theorem combine_fold_ok (rest : List Nat) :
    ∀ (heap : EntityHeap) (base : Nat), base ∉ rest → base < heap.size →
    (entityAt heap base).names ≠ [] →
    (∀ i ∈ rest, (entityAt heap i).names ≠ []) →
    ∃ h', rest.foldlM
      (fun h i => do
        let merged ← (entityAt h base).merge_entity (entityAt h i)
        pure (h.setD base merged))
      heap = .ok h' ∧ h'.size = heap.size := by
  induction rest with
  | nil => intro heap base _ _ _ _; exact ⟨heap, rfl, rfl⟩
  | cons i rest' ih =>
    intro heap base hnb hlt hbase hrest
    have hib : i ≠ base := fun h => hnb (h ▸ List.mem_cons_self _ _)
    obtain ⟨m, hm⟩ := merge_entity_ok (entityAt heap base) (entityAt heap i)
      hbase (hrest i (List.mem_cons_self _ _))
    have hnb' : base ∉ rest' := fun h => hnb (List.mem_cons_of_mem _ h)
    have hlt' : base < (heap.setD base m).size := by rw [size_setD]; exact hlt
    have hbase' : (entityAt (heap.setD base m) base).names ≠ [] := by
      rw [entityAt_setD_self heap base m hlt]
      exact merge_entity_names_ne_nil _ _ m hm hbase
    have hrest' : ∀ j ∈ rest', (entityAt (heap.setD base m) j).names ≠ [] := by
      intro j hj
      by_cases hjb : j = base
      · rw [hjb, entityAt_setD_self heap base m hlt]
        exact merge_entity_names_ne_nil _ _ m hm hbase
      · rw [entityAt_setD_ne heap base j m hjb]
        exact hrest j (List.mem_cons_of_mem _ hj)
    obtain ⟨h', hfold, hsz⟩ := ih (heap.setD base m) base hnb' hlt' hbase' hrest'
    refine ⟨h', ?_, by rw [hsz, size_setD]⟩
    rw [List.foldlM_cons, hm]
    exact hfold

theorem combine_component_ok (heap : EntityHeap) (b : Nat) (l : List Nat)
    (hnd : (b :: l).Nodup) (hb : b < heap.size)
    (hns : ∀ i ∈ b :: l, (entityAt heap i).names ≠ []) :
    ∃ h', combine_component heap (b :: l) = .ok (b, h') ∧
      h'.size = heap.size := by
  have hnb : b ∉ l := (List.nodup_cons.mp hnd).1
  obtain ⟨h', hfold, hsz⟩ := combine_fold_ok l heap b hnb hb
    (hns b (List.mem_cons_self _ _))
    (fun i hi => hns i (List.mem_cons_of_mem _ hi))
  refine ⟨h', ?_, hsz⟩
  rw [combine_component_cons, hfold]
  rfl

theorem combine_entities_fold_ok (related : List (List Nat)) :
    ∀ (heap : EntityHeap) (acc0 : List Nat),
    (∀ L ∈ related, L ≠ [] ∧ L.Nodup ∧
      ∀ i ∈ L, i < heap.size ∧ (entityAt heap i).names ≠ []) →
    related.Pairwise (fun L L' => ∀ i ∈ L, i ∉ L') →
    ∃ outs h', related.foldlM
      (fun acc idxs => do
        let (b, h) ← combine_component acc.2 idxs
        pure (acc.1 ++ [b], h))
      (acc0, heap) = .ok (outs, h') := by
  induction related with
  | nil => intro heap acc0 _ _; exact ⟨acc0, heap, rfl⟩
  | cons L rest ih =>
    intro heap acc0 hinv hpw
    obtain ⟨hne, hnd, hlt⟩ := hinv L (List.mem_cons_self _ _)
    cases hL : L with
    | nil => exact absurd hL hne
    | cons b l =>
      subst hL
      obtain ⟨h1, hc, hsz⟩ := combine_component_ok heap b l hnd
        (hlt b (List.mem_cons_self _ _)).1
        (fun i hi => (hlt i hi).2)
      rw [List.pairwise_cons] at hpw
      have hframe := (combine_component_head heap (b :: l) b h1 hc).2
      have hinv' : ∀ L' ∈ rest, L' ≠ [] ∧ L'.Nodup ∧
          ∀ i ∈ L', i < h1.size ∧ (entityAt h1 i).names ≠ [] := by
        intro L' hL'
        obtain ⟨hne', hnd', hlt'⟩ := hinv L' (List.mem_cons_of_mem _ hL')
        refine ⟨hne', hnd', fun i hi => ?_⟩
        have hib : i ≠ b := fun h =>
          hpw.1 L' hL' b (List.mem_cons_self _ _) (h ▸ hi)
        constructor
        · rw [hsz]; exact (hlt' i hi).1
        · rw [hframe i hib]; exact (hlt' i hi).2
      obtain ⟨outs, h', hfold⟩ := ih h1 (acc0 ++ [b]) hinv' hpw.2
      refine ⟨outs, h', ?_⟩
      rw [List.foldlM_cons]
      dsimp only
      rw [hc]
      exact hfold

theorem mem_unifyGroups_lt (old_entities new_entities : List Entity)
    (idxs : List Nat) (hg : idxs ∈ unifyGroups old_entities new_entities)
    (i : Nat) (hi : i ∈ idxs) :
    i < old_entities.length + new_entities.length := by
  unfold unifyGroups at hg
  rcases List.mem_cons.mp hg with h | h
  · subst h
    have := List.mem_range.mp hi
    omega
  · rw [List.mem_singleton] at h
    subst h
    obtain ⟨j, hj, hji⟩ := List.mem_map.mp hi
    have := List.mem_range.mp hj
    omega

theorem entityAt_unifyHeap_mem (old_entities new_entities : List Entity)
    (i : Nat) (h : i < old_entities.length + new_entities.length) :
    entityAt (unifyHeap old_entities new_entities) i ∈
      old_entities ++ new_entities := by
  have h' : i < (old_entities ++ new_entities).length := by
    rw [List.length_append]; omega
  rw [unifyHeap, entityAt_toArray _ i h']
  exact List.getElem_mem h'

theorem strong_names_names_ne_nil (e : Entity) (nm : String)
    (h : nm ∈ e.strong_names) : e.names ≠ [] := by
  intro hn
  unfold Entity.strong_names at h
  rw [hn] at h
  cases h

theorem unify_strong_all (old_entities new_entities : List Entity)
    (hall : ∀ e ∈ old_entities ++ new_entities, e.strong_names ≠ [])
    (idxs : List Nat) (hg : idxs ∈ unifyGroups old_entities new_entities)
    (i : Nat) (hi : i ∈ idxs) :
    (entityAt (unifyHeap old_entities new_entities) i).strong_names ≠ [] :=
  hall _ (entityAt_unifyHeap_mem old_entities new_entities i
    (mem_unifyGroups_lt old_entities new_entities idxs hg i hi))

theorem forall2_fun_unique {α β : Type} {R : α → β → Prop}
    (hfun : ∀ a b b', R a b → R a b' → b = b')
    {l : List α} : ∀ {l1 l2 : List β},
    List.Forall₂ R l l1 → List.Forall₂ R l l2 → l1 = l2 := by
  induction l with
  | nil =>
    intro l1 l2 h1 h2
    cases h1
    cases h2
    rfl
  | cons a l ih =>
    intro l1 l2 h1 h2
    cases h1 with
    | cons hr1 ht1 =>
      cases h2 with
      | cons hr2 ht2 =>
        rw [hfun a _ _ hr1 hr2, ih ht1 ht2]

theorem forall2_mem_self {α β : Type} {R : α → β → Prop} :
    ∀ {l1 : List α} {l2 : List β}, List.Forall₂ R l1 l2 →
    List.Forall₂ (fun a b => a ∈ l1 ∧ R a b) l1 l2 := by
  intro l1 l2 h
  induction h with
  | nil => exact List.Forall₂.nil
  | cons hr htail ih =>
    refine List.Forall₂.cons ⟨List.mem_cons_self _ _, hr⟩ ?_
    exact List.Forall₂.imp
      (fun {a b} h => ⟨List.mem_cons_of_mem _ h.1, h.2⟩) ih

theorem block_names_have_lookup (old_entities new_entities : List Entity)
    (E : List (String × String))
    (hE : add_edges (unifyHeap old_entities new_entities)
      (unifyGroups old_entities new_entities) = .ok E)
    (bl : List String)
    (hbl : bl ∈ connected_components
      (add_nodes (unifyHeap old_entities new_entities)
        (unifyGroups old_entities new_entities)) E)
    (nm : String) (hnm : nm ∈ bl) :
    ∃ j, mapNamesLookup
      (map_names (unifyHeap old_entities new_entities)
        (unifyGroups old_entities new_entities)) nm = some j := by
  rcases connected_components_members _ E bl hbl nm hnm with hn | ⟨e, he, hend⟩
  · obtain ⟨idxs, hg, i, hi, hs⟩ :=
      (add_nodes_mem_iff (unifyHeap old_entities new_entities)
        (unifyGroups old_entities new_entities) nm).mp hn
    exact mapNamesLookup_isSome _ _ idxs i nm hg hi hs
  · obtain ⟨idxs, hg, i, hi, h1, h2⟩ := add_edges_src _ _ E hE e he
    rcases hend with hend | hend
    · exact mapNamesLookup_isSome _ _ idxs i nm hg hi (hend ▸ h1)
    · exact mapNamesLookup_isSome _ _ idxs i nm hg hi (hend ▸ h2)

theorem block_lookup_total (heap : EntityHeap) (groups : List (List Nat))
    (E : List (String × String)) (hE : add_edges heap groups = .ok E)
    (bl : List String)
    (hbl : bl ∈ connected_components (add_nodes heap groups) E)
    (nm : String) (hnm : nm ∈ bl) :
    ∃ j, mapNamesLookup (map_names heap groups) nm = some j := by
  rcases connected_components_members _ E bl hbl nm hnm with hn | ⟨e, he, hend⟩
  · obtain ⟨idxs, hg, i, hi, hs⟩ := (add_nodes_mem_iff heap groups nm).mp hn
    exact mapNamesLookup_isSome _ _ idxs i nm hg hi hs
  · obtain ⟨idxs, hg, i, hi, h1, h2⟩ := add_edges_src _ _ E hE e he
    rcases hend with hend | hend
    · exact mapNamesLookup_isSome _ _ idxs i nm hg hi (hend ▸ h1)
    · exact mapNamesLookup_isSome _ _ idxs i nm hg hi (hend ▸ h2)

theorem unify_core (heap : EntityHeap) (groups : List (List Nat))
    (E : List (String × String)) (hE : add_edges heap groups = .ok E)
    (hbound : ∀ idxs ∈ groups, ∀ i ∈ idxs, i < heap.size)
    (iA iB iC : Nat) (nmAB nmBC aN bN cN : String)
    (hABa : nmAB ∈ (entityAt heap iA).strong_names)
    (hABb : nmAB ∈ (entityAt heap iB).strong_names)
    (hBCb : nmBC ∈ (entityAt heap iB).strong_names)
    (hBCc : nmBC ∈ (entityAt heap iC).strong_names)
    (hA : mapNamesLookup (map_names heap groups) aN = some iA)
    (hB : mapNamesLookup (map_names heap groups) bN = some iB)
    (hC : mapNamesLookup (map_names heap groups) cN = some iC) :
    ∃ related outs h',
      find_related_entities (map_names heap groups)
        (connected_components (add_nodes heap groups) E) = .ok related ∧
      combine_entities heap related = .ok (outs, h') ∧
      List.Forall₂ (fun (L : List Nat) b => L.head? = some b) related outs ∧
      ∃ L ∈ related, iA ∈ L ∧ iB ∈ L ∧ iC ∈ L ∧
        ∀ L' ∈ related, (iA ∈ L' ∨ iB ∈ L' ∨ iC ∈ L') → L' = L := by
  have hdisj := connected_components_disjoint (add_nodes heap groups) E
  obtain ⟨idxsA, hgA, hiA, haNs⟩ := mapNamesLookup_origin heap groups aN iA hA
  obtain ⟨idxsB, hgB, hiB, hbNs⟩ := mapNamesLookup_origin heap groups bN iB hB
  obtain ⟨idxsC, hgC, hiC, hcNs⟩ := mapNamesLookup_origin heap groups cN iC hC
  have sAB : sameBlock (connected_components (add_nodes heap groups) E)
      aN nmAB := entity_clique heap groups E hE idxsA hgA iA hiA aN nmAB haNs hABa
  have sB : sameBlock (connected_components (add_nodes heap groups) E)
      bN nmAB := entity_clique heap groups E hE idxsB hgB iB hiB bN nmAB hbNs hABb
  have sBC : sameBlock (connected_components (add_nodes heap groups) E)
      nmAB nmBC :=
    entity_clique heap groups E hE idxsB hgB iB hiB nmAB nmBC hABb hBCb
  have sC : sameBlock (connected_components (add_nodes heap groups) E)
      cN nmBC := entity_clique heap groups E hE idxsC hgC iC hiC cN nmBC hcNs hBCc
  have sCAB : sameBlock (connected_components (add_nodes heap groups) E)
      cN nmAB :=
    sameBlock_trans _ hdisj _ _ _ sC (sameBlock_symm _ _ _ sBC)
  obtain ⟨bl, hbl, haNbl, hABbl⟩ := sAB
  have hbNbl : bN ∈ bl := by
    obtain ⟨bl2, hbl2, hbN2, hAB2⟩ := sB
    have heq : bl2 = bl :=
      blocksDisjoint_unique _ hdisj bl2 bl hbl2 hbl nmAB hAB2 hABbl
    exact heq ▸ hbN2
  have hcNbl : cN ∈ bl := by
    obtain ⟨bl3, hbl3, hcN3, hAB3⟩ := sCAB
    have heq : bl3 = bl :=
      blocksDisjoint_unique _ hdisj bl3 bl hbl3 hbl nmAB hAB3 hABbl
    exact heq ▸ hcN3
  obtain ⟨related, hrel, hfa⟩ := find_related_ok (map_names heap groups)
    (connected_components (add_nodes heap groups) E)
    (fun bl' hbl' nm hnm => block_lookup_total heap groups E hE bl' hbl' nm hnm)
  obtain ⟨L, hLrel, idxs, hfa2, hLdef⟩ := forall2_mem_left hfa hbl
  have memL : ∀ (i0 : Nat) (nm0 : String), nm0 ∈ bl →
      mapNamesLookup (map_names heap groups) nm0 = some i0 → i0 ∈ L := by
    intro i0 nm0 hnm0 hl0
    obtain ⟨j, hj, hlj⟩ := forall2_mem_left hfa2 hnm0
    have hji : j = i0 := by
      rw [hl0] at hlj
      exact (Option.some.inj hlj).symm
    subst hji
    rw [hLdef]
    exact (mem_dedupKeepFirst idxs j).mpr hj
  have uniq : ∀ (i0 : Nat), (∃ idxs0 ∈ groups, i0 ∈ idxs0) →
      (∃ nm0, nm0 ∈ (entityAt heap i0).strong_names ∧ nm0 ∈ bl) →
      ∀ L' ∈ related, i0 ∈ L' → L' = L := by
    rintro i0 ⟨idxs0, hg0, hi0⟩ ⟨nm0, hnm0s, hnm0bl⟩ L' hL' hiL'
    obtain ⟨bl', hbl', idxs', hfa2', hLdef2⟩ := forall2_mem_right hfa hL'
    have hiidxs' : i0 ∈ idxs' := by
      rw [hLdef2] at hiL'
      exact (mem_dedupKeepFirst _ _).mp hiL'
    obtain ⟨nm', hnm'bl', hlnm'⟩ := forall2_mem_right hfa2' hiidxs'
    obtain ⟨idxs1, hg1, hi1, hnm's⟩ :=
      mapNamesLookup_origin heap groups nm' i0 hlnm'
    have hsb : sameBlock (connected_components (add_nodes heap groups) E)
        nm' nm0 :=
      entity_clique heap groups E hE idxs0 hg0 i0 hi0 nm' nm0 hnm's hnm0s
    obtain ⟨bl0, hbl0, hnm'bl0, hnm0bl0⟩ := hsb
    have e1 : bl' = bl0 :=
      blocksDisjoint_unique _ hdisj _ _ hbl' hbl0 nm' hnm'bl' hnm'bl0
    have e2 : bl = bl0 :=
      blocksDisjoint_unique _ hdisj _ _ hbl hbl0 nm0 hnm0bl hnm0bl0
    have ebl : bl' = bl := e1.trans e2.symm
    have hif : ∀ (nm : String) (j j' : Nat),
        mapNamesLookup (map_names heap groups) nm = some j →
        mapNamesLookup (map_names heap groups) nm = some j' → j = j' := by
      intro nm j j' h h'
      rw [h] at h'
      exact Option.some.inj h'
    have hidx : idxs' = idxs := forall2_fun_unique hif (ebl ▸ hfa2') hfa2
    rw [hLdef2, hidx, ← hLdef]
  have hinv : ∀ L' ∈ related, L' ≠ [] ∧ L'.Nodup ∧
      ∀ i ∈ L', i < heap.size ∧ (entityAt heap i).names ≠ [] := by
    intro L' hL'
    obtain ⟨bl', hbl', idxs', hfa2', hLdef2⟩ := forall2_mem_right hfa hL'
    refine ⟨?_, ?_, ?_⟩
    · obtain ⟨nm0, hnm0⟩ := List.exists_mem_of_ne_nil bl'
        (connected_components_nonempty _ E bl' hbl')
      obtain ⟨j, hj, -⟩ := forall2_mem_left hfa2' hnm0
      refine List.ne_nil_of_mem (a := j) ?_
      rw [hLdef2]
      exact (mem_dedupKeepFirst _ _).mpr hj
    · rw [hLdef2]
      exact nodup_dedupKeepFirst idxs'
    · intro i hi
      rw [hLdef2] at hi
      obtain ⟨nm', hnm', hlnm'⟩ :=
        forall2_mem_right hfa2' ((mem_dedupKeepFirst _ _).mp hi)
      obtain ⟨idxs1, hg1, hi1, hnm's⟩ :=
        mapNamesLookup_origin heap groups nm' i hlnm'
      exact ⟨hbound idxs1 hg1 i hi1, strong_names_names_ne_nil _ nm' hnm's⟩
  have hdisj' : (connected_components (add_nodes heap groups) E).Pairwise
      (fun b1 b2 => ∀ x, x ∈ b1 → x ∉ b2) := hdisj
  have hpw : related.Pairwise (fun L1 L2 => ∀ i ∈ L1, i ∉ L2) := by
    refine forall2_pairwise (forall2_mem_self hfa) hdisj' ?_
    rintro bl1 L1 bl2 L2 ⟨hbl1, idxs1, hfa21, hL1def⟩
      ⟨hbl2, idxs2, hfa22, hL2def⟩ hS i hiL1 hiL2
    obtain ⟨nm1, hnm1, hlnm1⟩ :=
      forall2_mem_right hfa21 ((mem_dedupKeepFirst _ _).mp (hL1def ▸ hiL1))
    obtain ⟨nm2, hnm2, hlnm2⟩ :=
      forall2_mem_right hfa22 ((mem_dedupKeepFirst _ _).mp (hL2def ▸ hiL2))
    obtain ⟨idxs0, hg0, hi0, hnm1s⟩ :=
      mapNamesLookup_origin heap groups nm1 i hlnm1
    obtain ⟨idxs0', hg0', hi0', hnm2s⟩ :=
      mapNamesLookup_origin heap groups nm2 i hlnm2
    obtain ⟨bl0, hbl0, hnm1bl0, hnm2bl0⟩ :=
      entity_clique heap groups E hE idxs0 hg0 i hi0 nm1 nm2 hnm1s hnm2s
    have e1 : bl1 = bl0 :=
      blocksDisjoint_unique _ hdisj _ _ hbl1 hbl0 nm1 hnm1 hnm1bl0
    have e2 : bl2 = bl0 :=
      blocksDisjoint_unique _ hdisj _ _ hbl2 hbl0 nm2 hnm2 hnm2bl0
    exact hS nm1 hnm1 (by rw [e2, ← e1]; exact hnm1)
  obtain ⟨outs, h', hcomb⟩ :=
    combine_entities_fold_ok related heap [] hinv hpw
  obtain ⟨bs, houts, hforall, -⟩ :=
    combine_entities_spec related heap [] outs h' hcomb
  have houts' : outs = bs := by simpa using houts
  subst houts'
  refine ⟨related, outs, h', hrel, hcomb, hforall,
    L, hLrel, ?_, ?_, ?_, ?_⟩
  · exact memL iA aN haNbl hA
  · exact memL iB bN hbNbl hB
  · exact memL iC cN hcNbl hC
  · intro L' hL' hmem
    rcases hmem with hm | hm | hm
    · exact uniq iA ⟨idxsA, hgA, hiA⟩ ⟨aN, haNs, haNbl⟩ L' hL' hm
    · exact uniq iB ⟨idxsB, hgB, hiB⟩ ⟨bN, hbNs, hbNbl⟩ L' hL' hm
    · exact uniq iC ⟨idxsC, hgC, hiC⟩ ⟨cN, hcNs, hcNbl⟩ L' hL' hm

/-- Claim C2 (corrected): merge transitivity holds only up to the
last-writer-wins name dict.  If A shares a strong name with B and B with C
(and A and C share none directly), all of A's, B's, and C's strong names
do land in one connected component; but `_find_related_entities` recovers
an entity from a component only through `mapping[name]`, so an entity
whose strong names were all overwritten by a later entity is silently
dropped.  Provided each of A, B, C still owns at least one dict entry
(`mapping[aN] is A`, etc.) and every input entity has at least one strong
name, `unify` succeeds and places A, B and C together in exactly one
component, which `_combine_entities` folds into a single returned
entity (one output per component, the component's first object). -/
theorem c2_merge_transitivity (old_entities new_entities : List Entity)
    (iA iB iC : Nat) (nmAB nmBC aN bN cN : String)
    (hall : ∀ e ∈ old_entities ++ new_entities, e.strong_names ≠ [])
    (hABa : nmAB ∈
      (entityAt (unifyHeap old_entities new_entities) iA).strong_names)
    (hABb : nmAB ∈
      (entityAt (unifyHeap old_entities new_entities) iB).strong_names)
    (hBCb : nmBC ∈
      (entityAt (unifyHeap old_entities new_entities) iB).strong_names)
    (hBCc : nmBC ∈
      (entityAt (unifyHeap old_entities new_entities) iC).strong_names)
    (hAC : ∀ nm ∈
        (entityAt (unifyHeap old_entities new_entities) iA).strong_names,
      nm ∉ (entityAt (unifyHeap old_entities new_entities) iC).strong_names)
    (hA : mapNamesLookup (map_names (unifyHeap old_entities new_entities)
      (unifyGroups old_entities new_entities)) aN = some iA)
    (hB : mapNamesLookup (map_names (unifyHeap old_entities new_entities)
      (unifyGroups old_entities new_entities)) bN = some iB)
    (hC : mapNamesLookup (map_names (unifyHeap old_entities new_entities)
      (unifyGroups old_entities new_entities)) cN = some iC) :
    ∃ related outs h',
      unify_related old_entities new_entities = .ok related ∧
      unify_entities old_entities new_entities = .ok (outs, h') ∧
      List.Forall₂ (fun (L : List Nat) b => L.head? = some b) related outs ∧
      ∃ L ∈ related, iA ∈ L ∧ iB ∈ L ∧ iC ∈ L ∧
        ∀ L' ∈ related, (iA ∈ L' ∨ iB ∈ L' ∨ iC ∈ L') → L' = L := by
  have hstrong : ∀ idxs ∈ unifyGroups old_entities new_entities, ∀ i ∈ idxs,
      (entityAt (unifyHeap old_entities new_entities) i).strong_names ≠ [] :=
    fun idxs hg i hi =>
      unify_strong_all old_entities new_entities hall idxs hg i hi
  obtain ⟨E, hE⟩ := add_edges_ok_of_strong _ _ hstrong
  have hbound : ∀ idxs ∈ unifyGroups old_entities new_entities, ∀ i ∈ idxs,
      i < (unifyHeap old_entities new_entities).size := by
    intro idxs hg i hi
    rw [unifyHeap, Array.size_toArray, List.length_append]
    exact mem_unifyGroups_lt old_entities new_entities idxs hg i hi
  obtain ⟨related, outs, h', hrel, hcomb, hforall, hLpart⟩ :=
    unify_core (unifyHeap old_entities new_entities)
      (unifyGroups old_entities new_entities) E hE hbound
      iA iB iC nmAB nmBC aN bN cN hABa hABb hBCb hBCc hA hB hC
  have hur : unify_related old_entities new_entities = .ok related := by
    rw [unify_related_eq_of_edges old_entities new_entities E hE]
    exact hrel
  have hue : unify_entities old_entities new_entities = .ok (outs, h') := by
    rw [unify_entities_eq_of_edges old_entities new_entities E hE]
    have hrel' : find_related_entities
        (map_names (old_entities ++ new_entities).toArray
          [List.range old_entities.length,
           (List.range new_entities.length).map
             (fun i => i + old_entities.length)])
        (connected_components
          (add_nodes (old_entities ++ new_entities).toArray
            [List.range old_entities.length,
             (List.range new_entities.length).map
               (fun i => i + old_entities.length)])
          E) = .ok related := hrel
    rw [hrel']
    exact hcomb
  exact ⟨related, outs, h', hur, hue, hforall, hLpart⟩

theorem c2_merge_transitivity_witness :
    ("nick" ∈ (entityAt (unifyHeap []
      [⟨[⟨"alice", "", false⟩, ⟨"nick", "", false⟩],
        EntityType.CHARACTER, "", [5], []⟩,
       ⟨[⟨"nick", "", false⟩, ⟨"bob", "", false⟩],
        EntityType.CHARACTER, "", [6], []⟩,
       ⟨[⟨"bob", "", false⟩, ⟨"carl", "", false⟩],
        EntityType.CHARACTER, "", [7], []⟩]) 0).strong_names ∧
     "bob" ∈ (entityAt (unifyHeap []
      [⟨[⟨"alice", "", false⟩, ⟨"nick", "", false⟩],
        EntityType.CHARACTER, "", [5], []⟩,
       ⟨[⟨"nick", "", false⟩, ⟨"bob", "", false⟩],
        EntityType.CHARACTER, "", [6], []⟩,
       ⟨[⟨"bob", "", false⟩, ⟨"carl", "", false⟩],
        EntityType.CHARACTER, "", [7], []⟩]) 2).strong_names) ∧
    (∃ related outs h',
      unify_related []
        [⟨[⟨"alice", "", false⟩, ⟨"nick", "", false⟩],
          EntityType.CHARACTER, "", [5], []⟩,
         ⟨[⟨"nick", "", false⟩, ⟨"bob", "", false⟩],
          EntityType.CHARACTER, "", [6], []⟩,
         ⟨[⟨"bob", "", false⟩, ⟨"carl", "", false⟩],
          EntityType.CHARACTER, "", [7], []⟩] = .ok related ∧
      unify_entities []
        [⟨[⟨"alice", "", false⟩, ⟨"nick", "", false⟩],
          EntityType.CHARACTER, "", [5], []⟩,
         ⟨[⟨"nick", "", false⟩, ⟨"bob", "", false⟩],
          EntityType.CHARACTER, "", [6], []⟩,
         ⟨[⟨"bob", "", false⟩, ⟨"carl", "", false⟩],
          EntityType.CHARACTER, "", [7], []⟩] = .ok (outs, h') ∧
      List.Forall₂ (fun (L : List Nat) b => L.head? = some b) related outs ∧
      ∃ L ∈ related, 0 ∈ L ∧ 1 ∈ L ∧ 2 ∈ L ∧
        ∀ L' ∈ related, (0 ∈ L' ∨ 1 ∈ L' ∨ 2 ∈ L') → L' = L) :=
  ⟨⟨by decide, by decide⟩,
    c2_merge_transitivity []
      [⟨[⟨"alice", "", false⟩, ⟨"nick", "", false⟩],
        EntityType.CHARACTER, "", [5], []⟩,
       ⟨[⟨"nick", "", false⟩, ⟨"bob", "", false⟩],
        EntityType.CHARACTER, "", [6], []⟩,
       ⟨[⟨"bob", "", false⟩, ⟨"carl", "", false⟩],
        EntityType.CHARACTER, "", [7], []⟩]
      0 1 2 "nick" "bob" "alice" "nick" "carl"
      (by decide) (by decide) (by decide) (by decide) (by decide) (by decide)
      (by decide) (by decide) (by decide)⟩

/-- Claim C2 counterexample: A = `{nick}` (chapter 5), B = `{nick, bob}`
(chapter 6), C = `{bob, carl}` (chapter 7) satisfy the claim's hypotheses
(A shares the strong name `nick` with B, B shares `bob` with C, A and C
share none), yet `unify` does not place A in the merged entity: the name
dict's entries for A's only strong name are overwritten by B, so the only
component recovers entities `[1, 2]` (B and C); A's object (index 0) is
in no component, and the single output entity carries `chapter_idx =
[6, 7]` — A's chapter 5 and its identity are silently lost. -/
theorem c2_merge_transitivity_counterexample :
    ("nick" ∈ (⟨[⟨"nick", "", false⟩],
        EntityType.CHARACTER, "", [5], []⟩ : Entity).strong_names ∧
     "nick" ∈ (⟨[⟨"nick", "", false⟩, ⟨"bob", "", false⟩],
        EntityType.CHARACTER, "", [6], []⟩ : Entity).strong_names) ∧
    ("bob" ∈ (⟨[⟨"nick", "", false⟩, ⟨"bob", "", false⟩],
        EntityType.CHARACTER, "", [6], []⟩ : Entity).strong_names ∧
     "bob" ∈ (⟨[⟨"bob", "", false⟩, ⟨"carl", "", false⟩],
        EntityType.CHARACTER, "", [7], []⟩ : Entity).strong_names) ∧
    (∀ nm ∈ (⟨[⟨"nick", "", false⟩],
        EntityType.CHARACTER, "", [5], []⟩ : Entity).strong_names,
      nm ∉ (⟨[⟨"bob", "", false⟩, ⟨"carl", "", false⟩],
        EntityType.CHARACTER, "", [7], []⟩ : Entity).strong_names) ∧
    unify_related []
      [⟨[⟨"nick", "", false⟩], EntityType.CHARACTER, "", [5], []⟩,
       ⟨[⟨"nick", "", false⟩, ⟨"bob", "", false⟩],
        EntityType.CHARACTER, "", [6], []⟩,
       ⟨[⟨"bob", "", false⟩, ⟨"carl", "", false⟩],
        EntityType.CHARACTER, "", [7], []⟩] = .ok [[1, 2]] ∧
    (∀ L ∈ [[1, 2]], (0 : Nat) ∉ L) ∧
    unify_result []
      [⟨[⟨"nick", "", false⟩], EntityType.CHARACTER, "", [5], []⟩,
       ⟨[⟨"nick", "", false⟩, ⟨"bob", "", false⟩],
        EntityType.CHARACTER, "", [6], []⟩,
       ⟨[⟨"bob", "", false⟩, ⟨"carl", "", false⟩],
        EntityType.CHARACTER, "", [7], []⟩] =
      .ok [⟨[⟨"nick", "", false⟩, ⟨"bob", "", false⟩, ⟨"carl", "", false⟩],
        EntityType.CHARACTER, "", [6, 7], []⟩] :=
  ⟨⟨by decide, by decide⟩, ⟨by decide, by decide⟩, by decide, rfl,
    by decide, rfl⟩
